import Mathlib

/-!
Verification development for the diffcalc You-geometry hkl calculator
(src/diffcalc/hkl/you/calcyou.py).

The Python module is shallowly embedded over the real numbers.  Python
floats are modelled as real numbers; Python exceptions are modelled with
the `Except` monad over the error type `PyErr`; `math.asin` / `math.acos`
(which raise ValueError outside [-1, 1]) are modelled by the checked
functions `asinE` / `acosE`; the float NaN produced for the undefined
azimuth psi is modelled by `Option.none`.

Helpers that calcyou.py imports from modules that are not part of the
source tree (diffcalc.utils, diffcalc.hkl.you.matrices,
diffcalc.hkl.you.position) are modelled from the specification and are
marked as such in their doc comments.
-/

noncomputable section

namespace CalcYou

open Real
open Classical

/-- Source calcyou.py line 22: the tolerance used by is_small. -/
def SMALL : ℝ := 1e-8

/-- Source line 23: degrees-to-radians factor. -/
def TORAD : ℝ := Real.pi / 180

/-- Source line 24: radians-to-degrees factor. -/
def TODEG : ℝ := 180 / Real.pi

/-- Source lines 27-28: is_small(x) means abs(x) < SMALL. -/
def is_small (x : ℝ) : Prop := |x| < SMALL

/-- Source lines 31-32: ne(a, b) means the two values differ by less than SMALL. -/
def ne (a b : ℝ) : Prop := is_small (a - b)

/-- Source lines 35-39: sequence_ne zips two sequences and requires ne componentwise. -/
def sequence_ne (a_seq b_seq : List ℝ) : Prop :=
  ∀ p ∈ a_seq.zip b_seq, ne p.1 p.2

/-- Source lines 42-43: sign(x) is 1 for positive x and -1 otherwise. -/
def sign (x : ℝ) : ℝ := if x > 0 then 1 else -1

/-- Source lines 46-51: wrap a value into roughly (-pi, pi]. -/
def cut_at_minus_pi (value : ℝ) : ℝ :=
  if value < -Real.pi - SMALL then value + 2 * Real.pi
  else if value ≥ Real.pi + SMALL then value - 2 * Real.pi
  else value

/-- Modelled from the spec: diffcalc.utils.bound is not under src/; section 4
of the spec states every asin/acos argument is clamped to [-1, 1] by bound. -/
def bound (x : ℝ) : ℝ := max (-1) (min 1 x)

/-- Python exceptions raised by the embedded code.  Messages are dropped;
each constructor corresponds to one exception class (and, for the plain
Exception cases, to one raise site and its message). -/
inductive PyErr where
  /-- DiffcalcException (any of its messages in calcyou.py). -/
  | diffcalcException : PyErr
  /-- NoSolutionException (source lines 162-164). -/
  | noSolutionException : PyErr
  /-- ValueError, including math domain errors from asin/acos. -/
  | valueError : PyErr
  /-- AssertionError from a failed assert statement. -/
  | assertionError : PyErr
  /-- RuntimeError (absence of a reference constraint, line 259). -/
  | runtimeError : PyErr
  /-- KeyError from a dictionary access with a missing key. -/
  | keyError : PyErr
  /-- UnboundLocalError from reading a never-assigned local variable. -/
  | unboundLocalError : PyErr
  /-- Plain Exception: Multiple detector solutions were found (line 790). -/
  | multipleDetectorSolutions : PyErr
  /-- Plain Exception: No solutions were found, please unconstrain detector
  or sample limits (line 360, end of the two-sample xi search). -/
  | searchExhausted : PyErr
  /-- Plain Exception: the fixed chi, mu mode restriction (line 674). -/
  | unsupportedChiMuMode : PyErr
deriving DecidableEq

/-- Python math.asin: arcsin on [-1, 1], ValueError (math domain error) outside. -/
def asinE (x : ℝ) : Except PyErr ℝ :=
  if |x| ≤ 1 then .ok (Real.arcsin x) else .error .valueError

/-- Python math.acos: arccos on [-1, 1], ValueError (math domain error) outside. -/
def acosE (x : ℝ) : Except PyErr ℝ :=
  if |x| ≤ 1 then .ok (Real.arccos x) else .error .valueError

/-- Python math.atan2 with the usual quadrant conventions (atan2(0, 0) = 0). -/
def atan2 (y x : ℝ) : ℝ :=
  if 0 < x then Real.arctan (y / x)
  else if x < 0 then
    (if 0 ≤ y then Real.arctan (y / x) + Real.pi else Real.arctan (y / x) - Real.pi)
  else
    (if 0 < y then Real.pi / 2 else if y < 0 then -(Real.pi / 2) else 0)

/-- Column vector with three real entries (a 3x1 numpy matrix in the source). -/
@[ext]
structure Vec3 where
  x : ℝ
  y : ℝ
  z : ℝ

/-- A 3x3 real matrix, with entry names row-column (xy is row 0, column 1). -/
@[ext]
structure Mat3 where
  xx : ℝ
  xy : ℝ
  xz : ℝ
  yx : ℝ
  yy : ℝ
  yz : ℝ
  zx : ℝ
  zy : ℝ
  zz : ℝ

namespace Vec3

/-- Scalar multiplication of a vector. -/
def smul (a : ℝ) (v : Vec3) : Vec3 := ⟨a * v.x, a * v.y, a * v.z⟩

/-- Euclidean dot product (diffcalc.utils.dot3, modelled from the spec). -/
def dot3 (a b : Vec3) : ℝ := a.x * b.x + a.y * b.y + a.z * b.z

/-- Cross product (diffcalc.utils.cross3, modelled from the spec). -/
def cross3 (a b : Vec3) : Vec3 :=
  ⟨a.y * b.z - a.z * b.y, a.z * b.x - a.x * b.z, a.x * b.y - a.y * b.x⟩

/-- Euclidean norm (numpy.linalg.norm on a column vector). -/
def norm3 (v : Vec3) : ℝ := Real.sqrt (v.x ^ 2 + v.y ^ 2 + v.z ^ 2)

end Vec3

namespace Mat3

/-- Matrix-vector product. -/
def mulVec (M : Mat3) (v : Vec3) : Vec3 :=
  ⟨M.xx * v.x + M.xy * v.y + M.xz * v.z,
   M.yx * v.x + M.yy * v.y + M.yz * v.z,
   M.zx * v.x + M.zy * v.y + M.zz * v.z⟩

/-- Matrix-matrix product. -/
def mul (A B : Mat3) : Mat3 :=
  ⟨A.xx * B.xx + A.xy * B.yx + A.xz * B.zx,
   A.xx * B.xy + A.xy * B.yy + A.xz * B.zy,
   A.xx * B.xz + A.xy * B.yz + A.xz * B.zz,
   A.yx * B.xx + A.yy * B.yx + A.yz * B.zx,
   A.yx * B.xy + A.yy * B.yy + A.yz * B.zy,
   A.yx * B.xz + A.yy * B.yz + A.yz * B.zz,
   A.zx * B.xx + A.zy * B.yx + A.zz * B.zx,
   A.zx * B.xy + A.zy * B.yy + A.zz * B.zy,
   A.zx * B.xz + A.zy * B.yz + A.zz * B.zz⟩

/-- Transpose. -/
def transpose (M : Mat3) : Mat3 :=
  ⟨M.xx, M.yx, M.zx, M.xy, M.yy, M.zy, M.xz, M.yz, M.zz⟩

/-- Determinant. -/
def det (M : Mat3) : ℝ :=
  M.xx * (M.yy * M.zz - M.yz * M.zy) - M.xy * (M.yx * M.zz - M.yz * M.zx)
    + M.xz * (M.yx * M.zy - M.yy * M.zx)

/-- Matrix inverse by the adjugate formula (numpy matrix .I on an invertible
matrix; on a singular matrix numpy raises, which never occurs on the
rotation and UB matrices this development inverts). -/
def inv (M : Mat3) : Mat3 :=
  let d := M.det
  ⟨(M.yy * M.zz - M.yz * M.zy) / d, -(M.xy * M.zz - M.xz * M.zy) / d,
   (M.xy * M.yz - M.xz * M.yy) / d, -(M.yx * M.zz - M.yz * M.zx) / d,
   (M.xx * M.zz - M.xz * M.zx) / d, -(M.xx * M.yz - M.xz * M.yx) / d,
   (M.yx * M.zy - M.yy * M.zx) / d, -(M.xx * M.zy - M.xy * M.zx) / d,
   (M.xx * M.yy - M.xy * M.yx) / d⟩

/-- Difference of matrices. -/
def sub (A B : Mat3) : Mat3 :=
  ⟨A.xx - B.xx, A.xy - B.xy, A.xz - B.xz, A.yx - B.yx, A.yy - B.yy,
   A.yz - B.yz, A.zx - B.zx, A.zy - B.zy, A.zz - B.zz⟩

/-- Scalar multiple of a matrix. -/
def smul (a : ℝ) (M : Mat3) : Mat3 :=
  ⟨a * M.xx, a * M.xy, a * M.xz, a * M.yx, a * M.yy, a * M.yz,
   a * M.zx, a * M.zy, a * M.zz⟩

end Mat3

/-- Source line 20: the identity matrix I. -/
def I : Mat3 := ⟨1, 0, 0, 0, 1, 0, 0, 0, 1⟩

/-- Modelled from the spec: diffcalc.utils.x_rotation (rotation about the
x axis), not under src/.  The sign conventions of the three rotation
factories are fixed by the concrete I16 test fixtures of section 8 of the
spec and src/tests, which this file re-verifies in claim C8 territory. -/
def x_rotation (t : ℝ) : Mat3 :=
  ⟨1, 0, 0, 0, Real.cos t, -Real.sin t, 0, Real.sin t, Real.cos t⟩

/-- Modelled from the spec: diffcalc.utils.y_rotation, not under src/. -/
def y_rotation (t : ℝ) : Mat3 :=
  ⟨Real.cos t, 0, Real.sin t, 0, 1, 0, -Real.sin t, 0, Real.cos t⟩

/-- Modelled from the spec: diffcalc.utils.z_rotation, not under src/. -/
def z_rotation (t : ℝ) : Mat3 :=
  ⟨Real.cos t, Real.sin t, 0, -Real.sin t, Real.cos t, 0, 0, 0, 1⟩

/-- Modelled from the spec: diffcalc.hkl.you.matrices.calcMU, not under src/. -/
def calcMU (mu : ℝ) : Mat3 := x_rotation mu

/-- Modelled from the spec: calcDELTA, not under src/; the convention is
fixed by the fixture delta=60 deg giving hkl = (1,0,0). -/
def calcDELTA (delta : ℝ) : Mat3 := z_rotation delta

/-- Modelled from the spec: calcNU, not under src/. -/
def calcNU (nu : ℝ) : Mat3 := x_rotation nu

/-- Modelled from the spec: calcETA, not under src/. -/
def calcETA (eta : ℝ) : Mat3 := z_rotation eta

/-- Modelled from the spec: calcCHI, not under src/. -/
def calcCHI (chi : ℝ) : Mat3 := y_rotation chi

/-- Modelled from the spec: calcPHI, not under src/. -/
def calcPHI (phi : ℝ) : Mat3 := z_rotation phi

/-- Modelled from the spec: diffcalc.hkl.you.position.YouPosition, the
six solved angles in radians (spec section 3, PositionVector). -/
@[ext]
structure YouPosition where
  mu : ℝ
  delta : ℝ
  nu : ℝ
  eta : ℝ
  chi : ℝ
  phi : ℝ

/-- Modelled from the spec: diffcalc.utils.angle_between_vectors, not under
src/; the angle between two vectors via the clamped arccos of the
normalised dot product. -/
def angle_between_vectors (a b : Vec3) : ℝ :=
  Real.arccos (bound (Vec3.dot3 a b / (Vec3.norm3 a * Vec3.norm3 b)))

/-- Source lines 79-89: youAnglesToHkl computes the miller indices for a
position (radians) as UB^-1 PHI^-1 CHI^-1 ETA^-1 MU^-1 (NU DELTA - I) q. -/
def youAnglesToHkl (pos : YouPosition) (wavelength : ℝ) (UBmatrix : Mat3) :
    ℝ × ℝ × ℝ :=
  let MU := calcMU pos.mu
  let DELTA := calcDELTA pos.delta
  let NU := calcNU pos.nu
  let ETA := calcETA pos.eta
  let CHI := calcCHI pos.chi
  let PHI := calcPHI pos.phi
  let q_lab := ((NU.mul DELTA).sub I).mulVec ⟨0, 2 * Real.pi / wavelength, 0⟩
  let hkl := ((((UBmatrix.inv.mul PHI.inv).mul CHI.inv).mul ETA.inv).mul
      MU.inv).mulVec q_lab
  (hkl.x, hkl.y, hkl.z)

/-- Triple as a list, for sequence_ne comparisons of hkl values. -/
def tripleList (t : ℝ × ℝ × ℝ) : List ℝ := [t.1, t.2.1, t.2.2]

/-- The constraint collaborator (spec section 3, ConstraintSet).  Each group
is an association list modelling the Python dict: the source reads the
first item with items()[0], tests key membership with `in`, and counts
entries with len. -/
structure Constraints where
  reference : List (String × ℝ)
  detector : List (String × ℝ)
  naz : List (String × ℝ)
  sample : List (String × ℝ)

/-- The hardware collaborator (spec sections 3 and 6): per-axis limit check
(taking a value in degrees) and the cut function, both consulted but never
owned by the engine. -/
structure Hardware where
  isAxisValueWithinLimits : String → ℝ → Bool
  cutAngle : String → ℝ → ℝ

/-- Whether a detector-like constraint is present (source line 95: the
truthiness of constraints.detector or constraints.naz, dicts being truthy
when non-empty). -/
def detector_like (cons : Constraints) : Prop :=
  cons.detector ≠ [] ∨ cons.naz ≠ []

/-- The key set of a constraint group. -/
def keys (group : List (String × ℝ)) : List String := group.map Prod.fst

/-- Source lines 92-125: _tidy_degenerate_solutions redistributes angle
between co-linear axis pairs in the two named degenerate cases, otherwise
returns the position unchanged.  (The source mutates pos in place and
returns it; the embedding returns the new value.) -/
def tidy_degenerate_solutions (pos : YouPosition) (cons : Constraints) :
    YouPosition :=
  let nu_constrained_to_0 := is_small pos.nu ∧ detector_like cons
  let mu_constrained_to_0 := is_small pos.mu ∧ "mu" ∈ keys cons.sample
  let delta_constrained_to_0 := is_small pos.delta ∧ detector_like cons
  let eta_constrained_to_0 := is_small pos.eta ∧ "eta" ∈ keys cons.sample
  if nu_constrained_to_0 ∧ mu_constrained_to_0 then
    if is_small pos.chi then
      let desired_eta := pos.delta / 2
      let eta_diff := desired_eta - pos.eta
      { pos with eta := pos.eta + eta_diff, phi := pos.phi - eta_diff }
    else pos
  else if delta_constrained_to_0 ∧ eta_constrained_to_0 then
    if is_small (pos.chi - Real.pi / 2) then
      let desired_mu := pos.nu / 2
      let mu_diff := desired_mu - pos.mu
      { pos with mu := pos.mu + mu_diff, phi := pos.phi + mu_diff }
    else pos
  else pos

/-- Source lines 128-133: theta and qaz from the detector angles, via
Equation 19.  The acos is applied to a bound-clamped argument. -/
def theta_and_qaz_from_detector_angles (delta nu : ℝ) :
    Except PyErr (ℝ × ℝ) := do
  let t ← acosE (bound (Real.cos delta * Real.cos nu))
  let qaz := atan2 (Real.tan delta) (Real.sin nu)
  pure (t / 2, qaz)

/-- Source lines 136-143: keep the delta-nu pairs that reproduce the
required theta and qaz to within SMALL. -/
def filter_detector_solutions_by_theta_and_qaz :
    List (ℝ × ℝ) → ℝ → ℝ → Except PyErr (List (ℝ × ℝ))
  | [], _, _ => pure []
  | (delta, nu) :: rest, required_theta, required_qaz => do
    let tq ← theta_and_qaz_from_detector_angles delta nu
    let rest' ← filter_detector_solutions_by_theta_and_qaz rest
        required_theta required_qaz
    if ne tq.1 required_theta ∧ ne tq.2 required_qaz then
      pure ((delta, nu) :: rest')
    else
      pure rest'

/-- Source lines 146-159: the branch values an unconstrained angle is
allowed to take under the mechanism symmetries (a generator in Python,
embedded as the list of yielded values in order). -/
def generate_transformed_values (value : ℝ) (constrained : Bool) : List ℝ :=
  if constrained then [value]
  else if is_small value then [0, Real.pi]
  else if is_small (value - Real.pi / 2) ∨ is_small (value + Real.pi / 2) then
    [Real.pi / 2, -(Real.pi / 2)]
  else [value, -value, Real.pi + value, Real.pi - value]

/-- The fixed reference direction in the phi frame (source line 177,
self.n_phi = (0, 0, 1)). -/
def n_phi : Vec3 := ⟨0, 0, 1⟩

/-- The seven derived virtual angles (spec section 3, VirtualAngles).  The
azimuth psi is an Option: none models the float NaN that the source
stores when psi is undefined. -/
structure VirtualAngles where
  theta : ℝ
  qaz : ℝ
  alpha : ℝ
  naz : ℝ
  tau : ℝ
  psi : Option ℝ
  beta : ℝ

/-- Source lines 187-237: _anglesToVirtualAngles computes the virtual
angles from a position; the second argument (_wavelength) is unused by
the source.  All asin/acos arguments are clamped with bound; psi is NaN
(none) exactly when sin(tau) or cos(theta) is exactly zero. -/
def anglesToVirtualAngles (pos : YouPosition) (wavelength : ℝ) :
    Except PyErr VirtualAngles := do
  let tq ← theta_and_qaz_from_detector_angles pos.delta pos.nu
  let theta := tq.1
  let qaz := tq.2
  let MU := calcMU pos.mu
  let ETA := calcETA pos.eta
  let CHI := calcCHI pos.chi
  let PHI := calcPHI pos.phi
  let Z := ((MU.mul ETA).mul CHI).mul PHI
  let n_lab := Z.mulVec n_phi
  let alpha ← asinE (bound (-n_lab.y))
  let naz := atan2 n_lab.x n_lab.z
  let cos_tau := Real.cos alpha * Real.cos theta * Real.cos (naz - qaz) +
      Real.sin alpha * Real.sin theta
  let tau ← acosE (bound cos_tau)
  let sin_beta := 2 * Real.sin theta * Real.cos tau - Real.sin alpha
  let beta ← asinE (bound sin_beta)
  let sin_tau := Real.sin tau
  let cos_theta := Real.cos theta
  if sin_tau = 0 then
    pure ⟨theta, qaz, alpha, naz, tau, none, beta⟩
  else if cos_theta = 0 then
    pure ⟨theta, qaz, alpha, naz, tau, none, beta⟩
  else do
    let cos_psi := (Real.cos tau * Real.sin theta - Real.sin alpha) /
        (sin_tau * cos_theta)
    let psi ← acosE (bound cos_psi)
    pure ⟨theta, qaz, alpha, naz, tau, some psi, beta⟩

/-- Source lines 388-400: _calc_theta derives the Bragg angle from the
length of the scattering vector; DiffcalcException if the length is zero
or too long for the wavelength (the asin ValueError is caught and
re-raised as DiffcalcException). -/
def calc_theta (h_phi : Vec3) (wavelength : ℝ) : Except PyErr ℝ := do
  let q_length := Vec3.norm3 h_phi
  if q_length = 0 then throw .diffcalcException
  let wavevector := 2 * Real.pi / wavelength
  match asinE (q_length / (2 * wavevector)) with
  | .ok theta => pure theta
  | .error _ => throw .diffcalcException

/-- Source lines 402-453: _calc_remaining_reference_angles returns
(psi, alpha, beta) given one reference constraint.  Note that the
degeneracy guards test sin(tau) == 0 and cos(theta) == 0 exactly, and
that the alpha branch applies asin without any magnitude check while the
beta branch checks only against 1 + SMALL before an unclamped asin. -/
def calc_remaining_reference_angles (name : String) (value theta tau : ℝ) :
    Except PyErr (ℝ × ℝ × ℝ) := do
  if Real.sin tau = 0 then throw .diffcalcException
  if Real.cos theta = 0 then throw .diffcalcException
  if name = "psi" then
    let psi := value
    let sin_alpha := Real.cos tau * Real.sin theta -
        Real.cos theta * Real.sin tau * Real.cos psi
    if |sin_alpha| > 1 + SMALL then throw .diffcalcException
    let alpha ← asinE (bound sin_alpha)
    let sin_beta := Real.cos tau * Real.sin theta +
        Real.cos theta * Real.sin tau * Real.cos psi
    if |sin_beta| > 1 + SMALL then throw .diffcalcException
    let beta ← asinE (bound sin_beta)
    pure (psi, alpha, beta)
  else if name = "a_eq_b" then
    let alpha ← asinE (bound (Real.cos tau * Real.sin theta))
    let cos_psi := (Real.cos tau * Real.sin theta - Real.sin alpha) /
        (Real.sin tau * Real.cos theta)
    let psi ← acosE (bound cos_psi)
    pure (psi, alpha, alpha)
  else if name = "alpha" then
    let alpha := value
    let sin_beta := 2 * Real.sin theta * Real.cos tau - Real.sin alpha
    let beta ← asinE sin_beta
    let cos_psi := (Real.cos tau * Real.sin theta - Real.sin alpha) /
        (Real.sin tau * Real.cos theta)
    let psi ← acosE (bound cos_psi)
    pure (psi, alpha, beta)
  else if name = "beta" then
    let beta := value
    let sin_alpha := 2 * Real.sin theta * Real.cos tau - Real.sin beta
    if |sin_alpha| > 1 + SMALL then throw .diffcalcException
    let alpha ← asinE sin_alpha
    let cos_psi := (Real.cos tau * Real.sin theta - Real.sin alpha) /
        (Real.sin tau * Real.cos theta)
    let psi ← acosE (bound cos_psi)
    pure (psi, alpha, beta)
  else
    -- any other name falls through every branch and then reads the
    -- never-assigned local alpha at source line 449
    throw .unboundLocalError

/-- Source lines 70-76: _calc_angle_between_naz_and_qaz (Equation 30);
ValueError when the denominator cos(alpha) cos(theta) is too small. -/
def calc_angle_between_naz_and_qaz (theta alpha tau : ℝ) :
    Except PyErr ℝ := do
  let top := Real.cos tau - Real.sin alpha * Real.sin theta
  let bottom := Real.cos alpha * Real.cos theta
  if is_small bottom then throw .valueError
  acosE (bound (top / bottom))

/-- Source lines 455-507: _calc_remaining_detector_angles returns
(delta, nu, qaz) given one explicit detector constraint. -/
def calc_remaining_detector_angles (constraint_name : String)
    (constraint_value theta : ℝ) : Except PyErr (ℝ × ℝ × ℝ) := do
  if constraint_name = "delta" then
    let delta := constraint_value
    let sin_2theta := Real.sin (2 * theta)
    if is_small sin_2theta then throw .diffcalcException
    let qaz ← asinE (bound (Real.sin delta / sin_2theta))
    let nu := atan2 (Real.sin (2 * theta) * Real.cos qaz)
        (Real.cos (2 * theta))
    pure (delta, nu, qaz)
  else if constraint_name = "nu" then
    let nu := constraint_value
    let sin_2theta := Real.sin (2 * theta)
    if is_small sin_2theta then throw .diffcalcException
    let cos_qaz := Real.tan nu / Real.tan (2 * theta)
    if |cos_qaz| > 1 + SMALL then throw .diffcalcException
    let qaz ← acosE (bound cos_qaz)
    let delta ←
      if ¬ is_small (Real.cos qaz) then
        pure (atan2 (Real.sin qaz * Real.sin nu) (Real.cos qaz))
      else do
        let a ← acosE (bound (Real.cos (2 * theta) / Real.cos nu))
        pure (sign qaz * a)
    pure (delta, nu, qaz)
  else if constraint_name = "qaz" then
    let qaz := constraint_value
    let nu := atan2 (Real.sin (2 * theta) * Real.cos qaz)
        (Real.cos (2 * theta))
    let delta ←
      if ¬ is_small (Real.cos qaz) then
        pure (atan2 (Real.sin qaz * Real.sin nu) (Real.cos qaz))
      else do
        let a ← acosE (bound (Real.cos (2 * theta) / Real.cos nu))
        pure (sign qaz * a)
    pure (delta, nu, qaz)
  else
    throw .valueError

/-- Python min over a non-empty list of floats (0 for the empty list,
which the source never reaches). -/
def list_min : List ℝ → ℝ
  | [] => 0
  | [a] => a
  | a :: b :: rest => min a (list_min (b :: rest))

/-- The first index at which a list attains a value (list.index in
Python); the list length if the value is absent. -/
def first_index_of (l : List ℝ) (v : ℝ) : ℕ :=
  l.findIdx (fun x => decide (x = v))

/-- Source lines 834-846, inner loop: the transformed values of one axis
that pass the hardware limit check (performed in degrees on the cut
angle), each recorded as cut_at_minus_pi of the transformed value. -/
def axis_candidates (hw : Hardware) (value : ℝ) (name : String)
    (constrained_names : List String) : List ℝ :=
  ((generate_transformed_values value (name ∈ constrained_names)).filter
    (fun tv => hw.isAxisValueWithinLimits name
        (hw.cutAngle name (tv * TODEG)))).map cut_at_minus_pi

/-- Source lines 848-858: the expand combinator used in the reduce that
builds the cross-product of per-axis candidate lists. -/
def expand (tuples_so_far : List (List ℝ)) (b : List ℝ) : List (List ℝ) :=
  (tuples_so_far.map (fun t => b.map (fun bb => t ++ [bb]))).flatten

/-- Source lines 834-860: _generate_possible_solutions; the reduce with no
initialiser starts from the first candidate list (whose bare floats are
wrapped into 1-tuples by expand on first use). -/
def generate_possible_solutions (hw : Hardware) (values : List ℝ)
    (names : List String) (constrained_names : List String) :
    List (List ℝ) :=
  let transformed_values := (values.zip names).map
    (fun vn => axis_candidates hw vn.1 vn.2 constrained_names)
  match transformed_values with
  | [] => []
  | first :: rest => rest.foldl expand (first.map (fun x => [x]))

/-- Reads a length-2 candidate back as a pair (the source unpacks the
tuples directly; generate_possible_solutions over two axes only produces
length-2 lists). -/
def as_pairs (ls : List (List ℝ)) : List (ℝ × ℝ) :=
  ls.map (fun l => (l.getD 0 0, l.getD 1 0))

/-- Reads a length-4 candidate back as a 4-tuple. -/
def as_quads (ls : List (List ℝ)) : List (ℝ × ℝ × ℝ × ℝ) :=
  ls.map (fun l => (l.getD 0 0, l.getD 1 0, l.getD 2 0, l.getD 3 0))

/-- Source lines 786-796: _choose_detector_angles requires exactly one
surviving pair: more is the multiple-solutions Exception, zero is
NoSolutionException. -/
def choose_detector_angles (delta_nu_pairs : List (ℝ × ℝ)) :
    Except PyErr (ℝ × ℝ) :=
  if delta_nu_pairs.length > 1 then throw .multipleDetectorSolutions
  else
    match delta_nu_pairs with
    | [] => throw .noSolutionException
    | p :: _ => pure p

/-- Whether a delta is in the close-to-90-degrees band of source line 710
(the second conjunct of the Python condition is float truthiness of
abs(delta - pi/2), i.e. delta differs from pi/2). -/
def close_to_90 (delta : ℝ) : Prop :=
  |delta - Real.pi / 2| < 0.01 ∧ delta - Real.pi / 2 ≠ 0

/-- The theta values recomputed for a list of delta-nu pairs (the list
comprehension at source lines 716-717). -/
def thetas_of : List (ℝ × ℝ) → Except PyErr (List ℝ)
  | [] => pure []
  | p :: rest => do
    let tq ← theta_and_qaz_from_detector_angles p.1 p.2
    let rest' ← thetas_of rest
    pure (tq.1 :: rest')

/-- Source lines 706-721: when several filtered pairs have delta close to
90 degrees duplicating the same theta, keep only the one closest to the
required theta (together with all pairs not close to 90). -/
def prune_close_to_90 (delta_nu_pairs : List (ℝ × ℝ)) (theta : ℝ) :
    Except PyErr (List (ℝ × ℝ)) :=
  if delta_nu_pairs.length > 1 then do
    let pairs_close_to_90 := delta_nu_pairs.filter
      (fun p => decide (close_to_90 p.1))
    let other_pairs := delta_nu_pairs.filter
      (fun p => decide (¬ close_to_90 p.1))
    if pairs_close_to_90 ≠ [] then do
      let thetas ← thetas_of pairs_close_to_90
      let th_errs := thetas.map (fun t => |t - theta|)
      let closest_index := first_index_of th_errs (list_min th_errs)
      pure (other_pairs ++ [pairs_close_to_90.getD closest_index (0, 0)])
    else
      pure delta_nu_pairs
  else
    pure delta_nu_pairs

/-- Source lines 687-724: _generate_final_detector_angles.  With delta at
90 degrees and nu unconstrained it short-circuits to (delta, 0) without
consulting the hardware limits; otherwise it expands, limit-filters,
theta/qaz-filters, prunes near-90 duplicates and requires a unique pair. -/
def generate_final_detector_angles (cons : Constraints) (hw : Hardware)
    (initial_delta initial_nu qaz theta : ℝ) (det_constraint_name : String) :
    Except PyErr (ℝ × ℝ) :=
  if ne initial_delta (Real.pi / 2) ∧ "nu" ∉ keys cons.detector then
    pure (initial_delta, 0)
  else do
    let possible_delta_nu_pairs := as_pairs (generate_possible_solutions hw
      [initial_delta, initial_nu] (["delta", "nu"]) [det_constraint_name])
    let delta_nu_pairs ← filter_detector_solutions_by_theta_and_qaz
      possible_delta_nu_pairs theta qaz
    let delta_nu_pairs ← prune_close_to_90 delta_nu_pairs theta
    choose_detector_angles delta_nu_pairs

/-- Source lines 54-67: _calc_N builds the orthonormal matrix of Equation
31 with columns Q, (Qxn)xQ and Qxn; ValueError when Q and n are parallel.
Note the source normalises n by the norm of the already-normalised Q. -/
def calc_N (Q n : Vec3) : Except PyErr Mat3 := do
  let Q1 := Vec3.smul (1 / Vec3.norm3 Q) Q
  let n1 := Vec3.smul (1 / Vec3.norm3 Q1) n
  if is_small (angle_between_vectors Q1 n1) then throw .valueError
  let Qxn := Vec3.cross3 Q1 n1
  let QxnxQ := Vec3.cross3 Qxn Q1
  let QxnxQ1 := Vec3.smul (1 / Vec3.norm3 QxnxQ) QxnxQ
  let Qxn1 := Vec3.smul (1 / Vec3.norm3 Qxn) Qxn
  pure ⟨Q1.x, QxnxQ1.x, Qxn1.x,
        Q1.y, QxnxQ1.y, Qxn1.y,
        Q1.z, QxnxQ1.z, Qxn1.z⟩

/-- Source lines 509-609: _calc_remaining_sample_angles returns
(phi, chi, eta, mu) given one fixed sample angle, with the four atan2 and
asin extraction sub-cases of section 5.3 of the You paper. -/
def calc_remaining_sample_angles (constraint_name : String)
    (constraint_value : ℝ) (q_lab n_lab q_phi n_phi_arg : Vec3) :
    Except PyErr (ℝ × ℝ × ℝ × ℝ) := do
  let N_lab ← calc_N q_lab n_lab
  let N_phi ← calc_N q_phi n_phi_arg
  if constraint_name = "mu" then
    let mu := constraint_value
    let V := ((calcMU mu).inv.mul N_lab).mul N_phi.transpose
    let phi := atan2 V.zy V.zx
    let eta := atan2 (-V.yz) V.xz
    let chi := atan2 (Real.sqrt (V.zx ^ 2 + V.zy ^ 2)) V.zz
    if is_small (Real.sin chi) then
      -- chi near 0 or 180: phi and eta are colinear; choose eta = 0
      let eta := (0 : ℝ)
      let phi := atan2 V.xy V.xx
      pure (phi, chi, eta, mu)
    else
      pure (phi, chi, eta, mu)
  else if constraint_name = "phi" then
    let phi := constraint_value
    let V := (N_lab.mul N_phi.inv).mul (calcPHI phi).transpose
    let eta := atan2 V.xy (Real.sqrt (V.yy ^ 2 + V.zy ^ 2))
    let mu := atan2 V.zy V.yy
    let chi := atan2 V.xz V.xx
    if is_small (Real.cos eta) then throw .valueError
    pure (phi, chi, eta, mu)
  else if constraint_name = "eta" ∨ constraint_name = "chi" then do
    let V := N_lab.mul N_phi.transpose
    let ec ←
      if constraint_name = "eta" then do
        let eta := constraint_value
        let cos_eta := Real.cos eta
        if is_small cos_eta then throw PyErr.valueError
        let chi ← asinE (V.xz / cos_eta)
        pure (eta, chi)
      else do
        let chi := constraint_value
        let sin_chi := Real.sin chi
        if is_small sin_chi then throw PyErr.valueError
        let eta ← acosE (V.xz / sin_chi)
        pure (eta, chi)
    let eta := ec.1
    let chi := ec.2
    let top_for_mu := V.zz * Real.sin eta * Real.sin chi +
        V.yz * Real.cos chi
    let bot_for_mu := -(V.zz * Real.cos chi) +
        V.yz * Real.sin eta * Real.sin chi
    let mu := atan2 (-top_for_mu) (-bot_for_mu)
    let top_for_phi := V.xy * Real.cos eta * Real.cos chi -
        V.xx * Real.sin eta
    let bot_for_phi := V.xy * Real.sin eta +
        V.xx * Real.cos eta * Real.cos chi
    let phi := atan2 top_for_phi bot_for_phi
    pure (phi, chi, eta, mu)
  else
    throw .valueError

/-- Source lines 645-648: the chi-branch selection in the mu-eta
two-sample case: the first transformed chi in [pi/2, pi), or (Python
for-loop fall-through) the last generated value when none qualifies. -/
def pick_chi (vals : List ℝ) : ℝ :=
  match vals.find? (fun c => decide (Real.pi / 2 ≤ c ∧ c < Real.pi)) with
  | some c => c
  | none => vals.getLastD 0

/-- Source lines 611-685: _calc_angles_given_two_sample_and_reference
returns (xi, psi, mu, eta, chi, phi) for the three supported two-sample
constraint combinations. -/
def calc_angles_given_two_sample_and_reference
    (samp_constraints : List (String × ℝ)) (psi theta : ℝ)
    (q_phi n_phi_arg : Vec3) : Except PyErr (ℝ × ℝ × ℝ × ℝ × ℝ × ℝ) := do
  let N_phi ← calc_N q_phi n_phi_arg
  let THETA := z_rotation (-theta)
  let PSI := x_rotation psi
  let ks := keys samp_constraints
  if "chi" ∈ ks ∧ "phi" ∈ ks then
    let chi := ((samp_constraints.lookup ("chi")).getD 0)
    let phi := ((samp_constraints.lookup ("phi")).getD 0)
    let CHI := calcCHI chi
    let PHI := calcPHI phi
    let V := (((CHI.mul PHI).mul N_phi).mul PSI.transpose).mul
        THETA.transpose
    let xi := atan2 (-V.zx) V.zz
    let eta := atan2 (-V.xy) V.yy
    let mu := atan2 (-V.zy) (Real.sqrt (V.zz ^ 2 + V.zx ^ 2))
    pure (xi, psi, mu, eta, chi, phi)
  else if "mu" ∈ ks ∧ "eta" ∈ ks then
    let mu := ((samp_constraints.lookup ("mu")).getD 0)
    let eta := ((samp_constraints.lookup ("eta")).getD 0)
    let V := (N_phi.mul PSI.transpose).mul THETA.transpose
    let bot := Real.sqrt (Real.sin eta ^ 2 * Real.cos mu ^ 2 +
        Real.sin mu ^ 2)
    let a0 ← asinE (-V.zy / bot)
    let chi_orig := a0 - atan2 (Real.sin mu) (Real.sin eta * Real.cos mu)
    let chi :=
      if is_small eta ∧ is_small (mu + Real.pi / 2) then
        pick_chi (generate_transformed_values chi_orig false)
      else chi_orig
    let a := Real.sin chi * Real.cos eta
    let b := Real.sin chi * Real.sin eta * Real.sin mu -
        Real.cos chi * Real.cos mu
    let xi := atan2 (V.zz * a + V.zx * b) (V.zx * a - V.zz * b)
    let a2 := Real.sin chi * Real.sin mu -
        Real.cos mu * Real.cos chi * Real.sin eta
    let b2 := Real.cos mu * Real.cos eta
    let phi := atan2 (V.yy * a2 - V.xy * b2) (V.xy * a2 + V.yy * b2)
    pure (xi, psi, mu, eta, chi, phi)
  else if "chi" ∈ ks ∧ "mu" ∈ ks then
    let chi := ((samp_constraints.lookup ("chi")).getD 0)
    let mu := ((samp_constraints.lookup ("mu")).getD 0)
    if ¬ is_small mu ∧ ¬ is_small (chi - Real.pi / 2) then
      throw .unsupportedChiMuMode
    let V := (N_phi.mul PSI.transpose).mul THETA.transpose
    let eta ← asinE (-V.zy)
    let xi := atan2 V.zz V.zx
    let phi := -(atan2 V.xy V.yy)
    pure (xi, psi, mu, eta, chi, phi)
  else
    throw .diffcalcException

/-- The position built from a sample 4-tuple and the detector angles. -/
def posOf (t : ℝ × ℝ × ℝ × ℝ) (delta nu : ℝ) : YouPosition :=
  ⟨t.1, delta, nu, t.2.1, t.2.2.1, t.2.2.2⟩

/-- Looks a virtual angle up by name, as the Python dict access does;
psi is an Option because its NaN is modelled by none. -/
def vaGet (va : VirtualAngles) : String → Option (Option ℝ)
  | "theta" => some (some va.theta)
  | "qaz" => some (some va.qaz)
  | "alpha" => some (some va.alpha)
  | "naz" => some (some va.naz)
  | "tau" => some (some va.tau)
  | "psi" => some va.psi
  | "beta" => some (some va.beta)
  | _ => none

/-- Source lines 756-762: whether the virtual angles reproduce the
resolved reference constraint: alpha = beta within SMALL for a_eq_b,
otherwise ne of the constrained value against the named virtual angle.
A comparison against the NaN psi is False, as in Python; a missing key
raises KeyError. -/
def virtual_matches (ref_constraint_name : String)
    (ref_constraint_value : ℝ) (va : VirtualAngles) : Except PyErr Prop :=
  if ref_constraint_name = "a_eq_b" then pure (ne va.alpha va.beta)
  else
    match vaGet va ref_constraint_name with
    | some (some v) => pure (ne ref_constraint_value v)
    | some none => pure False
    | none => throw .keyError

/-- Source lines 742-784: _filter_valid_sample_solutions keeps the sample
tuples whose position maps back to the target hkl within SMALL and whose
virtual angles reproduce the resolved reference constraint. -/
def filter_valid_sample_solutions (UB : Mat3) (delta nu : ℝ) :
    List (ℝ × ℝ × ℝ × ℝ) → ℝ → List ℝ → String → ℝ →
    Except PyErr (List (ℝ × ℝ × ℝ × ℝ))
  | [], _, _, _, _ => pure []
  | t :: rest, wavelength, hkl, ref_name, ref_value => do
    let pos := posOf t delta nu
    let hkl_actual := youAnglesToHkl pos wavelength UB
    let hkl_okay := sequence_ne hkl (tripleList hkl_actual)
    let keep ←
      if hkl_okay then do
        let va ← anglesToVirtualAngles pos wavelength
        let virtual_okay ← virtual_matches ref_name ref_value va
        pure (hkl_okay ∧ virtual_okay)
      else
        pure False
    let rest' ← filter_valid_sample_solutions UB delta nu rest wavelength
        hkl ref_name ref_value
    if keep then pure (t :: rest') else pure rest'

/-- The canonical distance of a sample tuple from the all-zeros position
(source line 810: the sum of the absolute angle values). -/
def sum_abs4 (t : ℝ × ℝ × ℝ × ℝ) : ℝ :=
  |t.1| + |t.2.1| + |t.2.2.1| + |t.2.2.2|

/-- Source lines 798-832: _choose_sample_angles returns the surviving
tuple whose absolute-distance sum is minimal, the first such in
enumeration order; zero survivors is NoSolutionException. -/
def choose_sample_angles (mu_eta_chi_phi_tuples : List (ℝ × ℝ × ℝ × ℝ)) :
    Except PyErr (ℝ × ℝ × ℝ × ℝ) :=
  match mu_eta_chi_phi_tuples with
  | [] => throw .noSolutionException
  | [t] => pure t
  | ts =>
    let absolute_distances := ts.map sum_abs4
    let shortest_solution_index := first_index_of absolute_distances
        (list_min absolute_distances)
    pure (ts.getD shortest_solution_index (0, 0, 0, 0))

/-- Source lines 726-740: _generate_final_sample_angles expands the four
sample axes, filters by hardware limits, round-trip and reference
reproduction, and picks the canonical tuple. -/
def generate_final_sample_angles (UB : Mat3) (hw : Hardware)
    (mu_ eta_ chi_ phi_ : ℝ) (sample_constraint_names : List String)
    (delta nu wavelength : ℝ) (hkl : List ℝ) (ref_constraint_name : String)
    (ref_constraint_value : ℝ) : Except PyErr (ℝ × ℝ × ℝ × ℝ) := do
  let possible_tuples := as_quads (generate_possible_solutions hw
    [mu_, eta_, chi_, phi_] (["mu", "eta", "chi", "phi"])
    sample_constraint_names)
  let valid ← filter_valid_sample_solutions UB delta nu possible_tuples
      wavelength hkl ref_constraint_name ref_constraint_value
  choose_sample_angles valid

/-- Source lines 249-260: the reference-constraint column of _hklToAngles.
Returns the constraint name and value with the solved psi and alpha. -/
def ref_stage (cons : Constraints) (theta tau : ℝ) :
    Except PyErr (String × ℝ × ℝ × ℝ) := do
  match cons.reference with
  | [] => throw .runtimeError
  | nv :: _ => do
    let pab ← calc_remaining_reference_angles nv.1 nv.2 theta tau
    pure (nv.1, nv.2, pab.1, pab.2.1)

/-- Information carried out of the detector column: the detector
constraint name and the (possibly final) delta, nu, qaz, naz. -/
structure DetInfo where
  name : String
  delta : ℝ
  nu : ℝ
  qaz : ℝ
  naz : ℝ

/-- Source lines 262-293: the detector-constraint column of _hklToAngles.
Returns none when no detector or naz constraint is present (leaving the
detector locals unbound in the source).  Note the source line 291
truthiness quirk: after the rebinding at line 271, det_constraint holds
the constraint value, so _generate_final_detector_angles is skipped for a
detector constraint whose value is exactly 0.0 with no naz constraint. -/
def det_stage (cons : Constraints) (hw : Hardware) (theta alpha tau : ℝ) :
    Except PyErr (Option DetInfo) := do
  if cons.detector ≠ [] ∧ cons.naz ≠ [] then throw .assertionError
  match cons.detector with
  | nv :: _ => do
    let dnq ← calc_remaining_detector_angles nv.1 nv.2 theta
    let naz_qaz_angle ← calc_angle_between_naz_and_qaz theta alpha tau
    let naz := dnq.2.2 - naz_qaz_angle
    if nv.2 ≠ 0 ∨ cons.naz ≠ [] then do
      let dn ← generate_final_detector_angles cons hw dnq.1 dnq.2.1
          dnq.2.2 theta nv.1
      pure (some ⟨nv.1, dn.1, dn.2, dnq.2.2, naz⟩)
    else
      pure (some ⟨nv.1, dnq.1, dnq.2.1, dnq.2.2, naz⟩)
  | [] =>
    match cons.naz with
    | nv :: _ => do
      if nv.1 ≠ "naz" then throw .assertionError
      let naz := nv.2
      let naz_qaz_angle ← calc_angle_between_naz_and_qaz theta alpha tau
      let qaz := naz - naz_qaz_angle
      let nu := atan2 (Real.sin (2 * theta) * Real.cos qaz)
          (Real.cos (2 * theta))
      let delta := atan2 (Real.sin qaz * Real.sin nu) (Real.cos qaz)
      let dn ← generate_final_detector_angles cons hw delta nu qaz theta
          nv.1
      pure (some ⟨nv.1, dn.1, dn.2, qaz, naz⟩)
    | [] => pure none

/-- Source lines 331-361: the xi retry loop of the two-sample branch.
Only NoSolutionException from the detector or sample finalisation selects
the next transformed xi; other errors propagate.  Exhaustion raises the
plain Exception of line 360.  Returns (mu, delta, nu, eta, chi, phi). -/
def try_xi_loop (UB : Mat3) (cons : Constraints) (hw : Hardware)
    (theta wavelength h k l : ℝ) (ref_name : String) (ref_value : ℝ)
    (mu eta chi phi : ℝ) (sample_names : List String) :
    List ℝ → Except PyErr (ℝ × ℝ × ℝ × ℝ × ℝ × ℝ)
  | [] => throw .searchExhausted
  | xi :: rest =>
    let qaz0 := xi + Real.pi / 2
    let qaz1 := if qaz0 > 2 * Real.pi then qaz0 - 2 * Real.pi else qaz0
    match calc_remaining_detector_angles ("qaz") qaz1 theta with
    | .error e => .error e
    | .ok dnq =>
      match generate_final_detector_angles cons hw dnq.1 dnq.2.1 dnq.2.2
          theta ("qaz") with
      | .error .noSolutionException =>
        try_xi_loop UB cons hw theta wavelength h k l ref_name ref_value
          mu eta chi phi sample_names rest
      | .error e => .error e
      | .ok dn =>
        match generate_final_sample_angles UB hw mu eta chi phi
            sample_names dn.1 dn.2 wavelength [h, k, l] ref_name
            ref_value with
        | .error .noSolutionException =>
          try_xi_loop UB cons hw theta wavelength h k l ref_name ref_value
            mu eta chi phi sample_names rest
        | .error e => .error e
        | .ok mecp =>
          .ok (mecp.1, dn.1, dn.2, mecp.2.1, mecp.2.2.1, mecp.2.2.2)

/-- Source lines 295-372: the sample-constraint column of _hklToAngles.
Returns (mu, delta, nu, eta, chi, phi).  Reading the detector locals with
no detector column raises UnboundLocalError in the source (line 304). -/
def sample_stage (UB : Mat3) (cons : Constraints) (hw : Hardware)
    (theta alpha psi : ℝ) (detInfo : Option DetInfo)
    (h k l wavelength : ℝ) (ref_name : String) (ref_value : ℝ)
    (h_phi : Vec3) : Except PyErr (ℝ × ℝ × ℝ × ℝ × ℝ × ℝ) := do
  match cons.sample with
  | [sc] =>
    match detInfo with
    | none => throw .unboundLocalError
    | some di => do
      let q_lab : Vec3 := ⟨Real.cos theta * Real.sin di.qaz,
          -Real.sin theta, Real.cos theta * Real.cos di.qaz⟩
      let n_lab : Vec3 := ⟨Real.cos alpha * Real.sin di.naz,
          -Real.sin alpha, Real.cos alpha * Real.cos di.naz⟩
      let pcem ← calc_remaining_sample_angles sc.1 sc.2 q_lab n_lab h_phi
          n_phi
      let mecp ← generate_final_sample_angles UB hw pcem.2.2.2 pcem.2.2.1
          pcem.2.1 pcem.1 [sc.1] di.delta di.nu wavelength [h, k, l]
          ref_name ref_value
      pure (mecp.1, di.delta, di.nu, mecp.2.1, mecp.2.2.1, mecp.2.2.2)
  | [_, _] => do
    let angles ← calc_angles_given_two_sample_and_reference cons.sample
        psi theta h_phi n_phi
    try_xi_loop UB cons hw theta wavelength h k l ref_name ref_value
      angles.2.2.1 angles.2.2.2.1 angles.2.2.2.2.1 angles.2.2.2.2.2
      (keys cons.sample) (generate_transformed_values angles.1 false)
  | [_, _, _] => throw .diffcalcException
  | _ => throw .assertionError

/-- Source lines 239-386: _hklToAngles solves hkl to a position and its
virtual angles, staging reference, then detector, then sample, then the
degeneracy cleanup and the phi wrap into (-pi, pi]. -/
def hklToAngles (UB : Mat3) (cons : Constraints) (hw : Hardware)
    (h k l wavelength : ℝ) : Except PyErr (YouPosition × VirtualAngles) := do
  let h_phi := UB.mulVec ⟨h, k, l⟩
  let theta ← calc_theta h_phi wavelength
  let tau := angle_between_vectors h_phi n_phi
  let ref ← ref_stage cons theta tau
  let detInfo ← det_stage cons hw theta ref.2.2.2 tau
  let mdnecp ← sample_stage UB cons hw theta ref.2.2.2 ref.2.2.1 detInfo
      h k l wavelength ref.1 ref.2.1 h_phi
  let pos0 : YouPosition := ⟨mdnecp.1, mdnecp.2.1, mdnecp.2.2.1,
      mdnecp.2.2.2.1, mdnecp.2.2.2.2.1, mdnecp.2.2.2.2.2⟩
  let pos1 := tidy_degenerate_solutions pos0 cons
  let position :=
    if pos1.phi ≤ -Real.pi + SMALL then { pos1 with phi := pos1.phi + 2 * Real.pi }
    else pos1
  let pseudo_angles ← anglesToVirtualAngles position wavelength
  pure (position, pseudo_angles)

/-- The first named degenerate case of the DegeneracyResolver (spec
section 4.4 and source lines 96-103): nu and mu constrained to zero with
chi near zero. -/
def degenerate_case1 (pos : YouPosition) (cons : Constraints) : Prop :=
  (is_small pos.nu ∧ detector_like cons) ∧
  (is_small pos.mu ∧ "mu" ∈ keys cons.sample) ∧ is_small pos.chi

/-- The second named degenerate case (spec section 4.4 and source lines
98-115): delta and eta constrained to zero with chi near 90 degrees. -/
def degenerate_case2 (pos : YouPosition) (cons : Constraints) : Prop :=
  (is_small pos.delta ∧ detector_like cons) ∧
  (is_small pos.eta ∧ "eta" ∈ keys cons.sample) ∧
  is_small (pos.chi - Real.pi / 2)

/-- Round-trip target predicate: the position maps back to the requested
hkl within SMALL in each component (the hkl_okay test of the sample
filter, source line 753). -/
def hkl_okay_pred (UB : Mat3) (delta nu wavelength : ℝ) (hkl : List ℝ)
    (t : ℝ × ℝ × ℝ × ℝ) : Prop :=
  sequence_ne hkl (tripleList (youAnglesToHkl (posOf t delta nu) wavelength UB))

/-- Reference-reproduction predicate for a sample tuple (the virtual_okay
test of the sample filter, source lines 755-762). -/
def virtual_okay_pred (delta nu wavelength : ℝ) (ref_name : String)
    (ref_value : ℝ) (t : ℝ × ℝ × ℝ × ℝ) : Prop :=
  ∃ va P, anglesToVirtualAngles (posOf t delta nu) wavelength = .ok va ∧
    virtual_matches ref_name ref_value va = .ok P ∧ P

/-- A hardware collaborator whose limit check rejects every value (used to
exercise the boundary behaviour of claim C5). -/
def hwFalse : Hardware := ⟨fun _ _ => false, fun _ v => v⟩

/-- A permissive hardware collaborator for the concrete solve fixture:
delta in [0, 91] degrees, nu in [-10, 10] degrees, the sample axes in
[-91, 91] degrees, with the identity cut. -/
def hwWitness : Hardware :=
  ⟨fun name v =>
    if name = "delta" then decide (0 ≤ v ∧ v ≤ 91)
    else if name = "nu" then decide (|v| ≤ 10)
    else decide (|v| ≤ 91),
   fun _ v => v⟩

/-- Constraint set for the concrete solve fixture: reference a_eq_b,
detector qaz at 90 degrees, one sample constraint eta = 0. -/
def consWitness : Constraints :=
  ⟨[("a_eq_b", 0)], [("qaz", Real.pi / 2)], [], [("eta", 0)]⟩

/-- UB matrix of the concrete solve fixture: 2 pi times the identity. -/
def UBWitness : Mat3 := Mat3.smul (2 * Real.pi) I

/-! ### General helper lemmas -/

theorem SMALL_pos : (0 : ℝ) < SMALL := by norm_num [SMALL]

theorem neg_one_le_bound (x : ℝ) : -1 ≤ bound x := le_max_left _ _

theorem bound_le_one (x : ℝ) : bound x ≤ 1 :=
  max_le (by norm_num) (min_le_left _ _)

theorem abs_bound_le_one (x : ℝ) : |bound x| ≤ 1 :=
  abs_le.mpr ⟨neg_one_le_bound x, bound_le_one x⟩

theorem bound_eq_self {x : ℝ} (h1 : -1 ≤ x) (h2 : x ≤ 1) : bound x = x := by
  rw [bound, min_eq_right h2, max_eq_right h1]

theorem asinE_bound_ok (x : ℝ) :
    asinE (bound x) = .ok (Real.arcsin (bound x)) := by
  rw [asinE, if_pos (abs_bound_le_one x)]

theorem acosE_bound_ok (x : ℝ) :
    acosE (bound x) = .ok (Real.arccos (bound x)) := by
  rw [acosE, if_pos (abs_bound_le_one x)]

theorem asinE_ok {x : ℝ} (h : |x| ≤ 1) :
    asinE x = .ok (Real.arcsin x) := by rw [asinE, if_pos h]

theorem acosE_ok {x : ℝ} (h : |x| ≤ 1) :
    acosE x = .ok (Real.arccos x) := by rw [acosE, if_pos h]

theorem exceptPure (α : Type) (a : α) : (pure a : Except PyErr α) = .ok a := rfl

theorem exceptBindOk {α β : Type} (a : α) (f : α → Except PyErr β) :
    (Except.ok a >>= f : Except PyErr β) = f a := rfl

theorem exceptBindErr {α β : Type} (e : PyErr) (f : α → Except PyErr β) :
    (Except.error e >>= f : Except PyErr β) = .error e := rfl

/-! ### Claim C2 -/

/-- C2: _generate_transformed_values yields exactly the single input value
when the axis is constrained; exactly [0, pi] when the value is within
SMALL of zero; exactly [pi/2, -pi/2] when within SMALL of plus or minus
pi/2; and exactly [value, -value, pi + value, pi - value] otherwise, so
every axis contributes at most 4 candidates. -/
theorem C2_generate_transformed_values (value : ℝ) (constrained : Bool) :
    (constrained = true → generate_transformed_values value constrained = [value]) ∧
    (constrained = false → is_small value →
      generate_transformed_values value constrained = [0, Real.pi]) ∧
    (constrained = false → ¬ is_small value →
      (is_small (value - Real.pi / 2) ∨ is_small (value + Real.pi / 2)) →
      generate_transformed_values value constrained =
        [Real.pi / 2, -(Real.pi / 2)]) ∧
    (constrained = false → ¬ is_small value →
      ¬ (is_small (value - Real.pi / 2) ∨ is_small (value + Real.pi / 2)) →
      generate_transformed_values value constrained =
        [value, -value, Real.pi + value, Real.pi - value]) ∧
    (generate_transformed_values value constrained).length ≤ 4 := by
  refine ⟨?_, ?_, ?_, ?_, ?_⟩
  · intro h; simp [generate_transformed_values, h]
  · intro h h2; simp [generate_transformed_values, h, h2]
  · intro h h2 h3
    rw [generate_transformed_values]
    simp only [h, Bool.false_eq_true, if_false]
    rw [if_neg h2, if_pos h3]
  · intro h h2 h3
    rw [generate_transformed_values]
    simp only [h, Bool.false_eq_true, if_false]
    rw [if_neg h2, if_neg h3]
  · rw [generate_transformed_values]
    split
    · simp
    · split
      · simp
      · split <;> simp

/-- Witness for C2 at the concrete unconstrained value 3, which is in the
generic branch. -/
theorem C2_witness :
    generate_transformed_values 3 false = [3, -3, Real.pi + 3, Real.pi - 3] := by
  have h2 : ¬ is_small (3 : ℝ) := by
    rw [is_small, SMALL]; rw [not_lt]
    calc (1e-8 : ℝ) ≤ 3 := by norm_num
      _ ≤ |(3 : ℝ)| := le_abs_self _
  have h3 : ¬ (is_small ((3 : ℝ) - Real.pi / 2) ∨
      is_small ((3 : ℝ) + Real.pi / 2)) := by
    rw [not_or]
    constructor
    · rw [is_small, SMALL, not_lt]
      have h : (1.425 : ℝ) ≤ 3 - Real.pi / 2 := by
        nlinarith [Real.pi_lt_315]
      calc (1e-8 : ℝ) ≤ 1.425 := by norm_num
        _ ≤ 3 - Real.pi / 2 := h
        _ ≤ |(3 : ℝ) - Real.pi / 2| := le_abs_self _
    · rw [is_small, SMALL, not_lt]
      have h : (4 : ℝ) ≤ 3 + Real.pi / 2 := by
        nlinarith [Real.pi_gt_three]
      calc (1e-8 : ℝ) ≤ 4 := by norm_num
        _ ≤ 3 + Real.pi / 2 := h
        _ ≤ |(3 : ℝ) + Real.pi / 2| := le_abs_self _
  exact (C2_generate_transformed_values 3 false).2.2.2.1 rfl h2 h3

/-! ### Claim C3 -/

/-- C3: _choose_detector_angles returns the unique pair exactly when one
pair survives, raises the multiple-detector-solutions Exception whenever
more than one pair survives, and NoSolutionException whenever zero pairs
survive. -/
theorem C3_choose_detector_angles (pairs : List (ℝ × ℝ)) (p : ℝ × ℝ) :
    (choose_detector_angles pairs = .ok p ↔ pairs = [p]) ∧
    (pairs.length > 1 →
      choose_detector_angles pairs = .error .multipleDetectorSolutions) ∧
    (pairs = [] →
      choose_detector_angles pairs = .error .noSolutionException) := by
  match pairs with
  | [] => refine ⟨?_, ?_, ?_⟩ <;> simp [choose_detector_angles, throw, throwThe, MonadExceptOf.throw]
  | [a] =>
    have hret : choose_detector_angles [a] = .ok a := rfl
    refine ⟨?_, ?_, ?_⟩
    · rw [hret]
      constructor
      · intro h
        rw [Except.ok.inj h]
      · intro h
        obtain rfl : a = p := by simpa using h
        rfl
    · intro h; simp at h
    · intro h; simp at h
  | a :: b :: rest =>
    refine ⟨?_, ?_, ?_⟩
    · simp [choose_detector_angles, throw, throwThe, MonadExceptOf.throw]
    · intro _
      simp [choose_detector_angles, throw, throwThe, MonadExceptOf.throw]
    · intro h; simp at h

/-- Witness for C3 on concrete lists of length 1, 0 and 2. -/
theorem C3_witness :
    choose_detector_angles [((1 : ℝ), (2 : ℝ))] = .ok (1, 2) ∧
    choose_detector_angles ([] : List (ℝ × ℝ)) =
      .error .noSolutionException ∧
    choose_detector_angles [((1 : ℝ), (2 : ℝ)), (3, 4)] =
      .error .multipleDetectorSolutions :=
  ⟨(C3_choose_detector_angles [(1, 2)] (1, 2)).1.mpr rfl,
   (C3_choose_detector_angles [] (1, 2)).2.2 rfl,
   (C3_choose_detector_angles [(1, 2), (3, 4)] (1, 2)).2.1 (by simp)⟩

/-! ### Claim C9 -/

/-- C9: in the first degenerate case (nu and mu constrained to zero, chi
near zero) the cleanup sets eta to delta/2 and subtracts the same
difference from phi, preserving eta + phi and leaving mu, delta, nu and
chi unchanged; outside the two named degenerate cases the position is
returned unchanged. -/
theorem C9_tidy_degenerate_solutions (pos : YouPosition) (cons : Constraints) :
    (degenerate_case1 pos cons →
      tidy_degenerate_solutions pos cons =
        { pos with eta := pos.delta / 2,
                   phi := pos.phi - (pos.delta / 2 - pos.eta) } ∧
      (tidy_degenerate_solutions pos cons).eta +
        (tidy_degenerate_solutions pos cons).phi = pos.eta + pos.phi ∧
      (tidy_degenerate_solutions pos cons).mu = pos.mu ∧
      (tidy_degenerate_solutions pos cons).delta = pos.delta ∧
      (tidy_degenerate_solutions pos cons).nu = pos.nu ∧
      (tidy_degenerate_solutions pos cons).chi = pos.chi) ∧
    (¬ degenerate_case1 pos cons → ¬ degenerate_case2 pos cons →
      tidy_degenerate_solutions pos cons = pos) := by
  constructor
  · intro hd
    obtain ⟨h1, h2, h3⟩ := hd
    have heq : tidy_degenerate_solutions pos cons =
        { pos with eta := pos.delta / 2,
                   phi := pos.phi - (pos.delta / 2 - pos.eta) } := by
      rw [tidy_degenerate_solutions]
      rw [if_pos ⟨h1, h2⟩, if_pos h3]
      simp only [YouPosition.mk.injEq]
      refine ⟨?_, ?_, ?_, ?_, ?_, ?_⟩ <;> first | trivial | ring
    refine ⟨heq, ?_, ?_, ?_, ?_, ?_⟩
    · rw [heq]; simp only; ring
    · rw [heq]
    · rw [heq]
    · rw [heq]
    · rw [heq]
  · intro hn1 hn2
    rw [tidy_degenerate_solutions]
    by_cases hA : (is_small pos.nu ∧ detector_like cons) ∧
        is_small pos.mu ∧ "mu" ∈ keys cons.sample
    · rw [if_pos hA]
      have hchi : ¬ is_small pos.chi := by
        intro hc; exact hn1 ⟨hA.1, hA.2, hc⟩
      rw [if_neg hchi]
    · rw [if_neg hA]
      by_cases hB : (is_small pos.delta ∧ detector_like cons) ∧
          is_small pos.eta ∧ "eta" ∈ keys cons.sample
      · rw [if_pos hB]
        have hchi : ¬ is_small (pos.chi - Real.pi / 2) := by
          intro hc; exact hn2 ⟨hB.1, hB.2, hc⟩
        rw [if_neg hchi]
      · rw [if_neg hB]

/-- Witness for C9: a concrete degenerate-case-1 position and, with a
different sample constraint, a concrete unchanged position. -/
theorem C9_witness :
    tidy_degenerate_solutions ⟨0, 1, 0, 0.2, 0, 0.3⟩
      ⟨[], [(("qaz" : String), 1)], [], [(("mu" : String), 0)]⟩ =
      ⟨0, 1, 0, 1 / 2, 0, 0.3 - (1 / 2 - 0.2)⟩ ∧
    tidy_degenerate_solutions ⟨0, 1, 0, 0.2, 0, 0.3⟩
      ⟨[], [(("qaz" : String), 1)], [], [(("eta" : String), 0)]⟩ =
      ⟨0, 1, 0, 0.2, 0, 0.3⟩ := by
  have hz : is_small (0 : ℝ) := by rw [is_small, SMALL]; norm_num
  have h1 : ¬ is_small (1 : ℝ) := by
    rw [is_small, SMALL, not_lt]
    calc (1e-8 : ℝ) ≤ 1 := by norm_num
      _ ≤ |(1 : ℝ)| := le_abs_self _
  constructor
  · have := (C9_tidy_degenerate_solutions ⟨0, 1, 0, 0.2, 0, 0.3⟩
      ⟨[], [("qaz", 1)], [], [("mu", 0)]⟩).1
      ⟨⟨hz, Or.inl (by simp)⟩, ⟨hz, by simp [keys]⟩, hz⟩
    exact this.1
  · have := (C9_tidy_degenerate_solutions ⟨0, 1, 0, 0.2, 0, 0.3⟩
      ⟨[], [("qaz", 1)], [], [("eta", 0)]⟩).2
      (by
        intro hd
        exact absurd hd.2.1.2 (by simp [keys]))
      (by
        intro hd
        exact h1 hd.1.1)
    exact this

/-! ### Evaluation toolkit: rotation matrices, identity, atan2 -/

theorem x_rotation_zero : x_rotation 0 = I := by
  rw [x_rotation, I, Real.cos_zero, Real.sin_zero]; norm_num

theorem y_rotation_zero : y_rotation 0 = I := by
  rw [y_rotation, I, Real.cos_zero, Real.sin_zero]; norm_num

theorem z_rotation_zero : z_rotation 0 = I := by
  rw [z_rotation, I, Real.cos_zero, Real.sin_zero]; norm_num

theorem id_mul (M : Mat3) : I.mul M = M := by
  rw [I, Mat3.mul]; ext <;> simp

theorem mul_id (M : Mat3) : M.mul I = M := by
  rw [I, Mat3.mul]; ext <;> simp

theorem id_mulVec (v : Vec3) : I.mulVec v = v := by
  rw [I, Mat3.mulVec]; ext <;> simp

theorem det_z_rotation (t : ℝ) : (z_rotation t).det = 1 := by
  rw [z_rotation, Mat3.det]
  simp only
  nlinarith [Real.sin_sq_add_cos_sq t]

theorem det_x_rotation (t : ℝ) : (x_rotation t).det = 1 := by
  rw [x_rotation, Mat3.det]
  simp only
  nlinarith [Real.sin_sq_add_cos_sq t]

theorem det_y_rotation (t : ℝ) : (y_rotation t).det = 1 := by
  rw [y_rotation, Mat3.det]
  simp only
  nlinarith [Real.sin_sq_add_cos_sq t]

theorem z_rotation_inv (t : ℝ) : (z_rotation t).inv = z_rotation (-t) := by
  have hd := det_z_rotation t
  rw [Mat3.inv, hd]
  rw [z_rotation, z_rotation, Real.cos_neg, Real.sin_neg]
  ext <;> simp <;> nlinarith [Real.sin_sq_add_cos_sq t]

theorem x_rotation_inv (t : ℝ) : (x_rotation t).inv = x_rotation (-t) := by
  have hd := det_x_rotation t
  rw [Mat3.inv, hd]
  rw [x_rotation, x_rotation, Real.cos_neg, Real.sin_neg]
  ext <;> simp <;> nlinarith [Real.sin_sq_add_cos_sq t]

theorem y_rotation_inv (t : ℝ) : (y_rotation t).inv = y_rotation (-t) := by
  have hd := det_y_rotation t
  rw [Mat3.inv, hd]
  rw [y_rotation, y_rotation, Real.cos_neg, Real.sin_neg]
  ext <;> simp <;> nlinarith [Real.sin_sq_add_cos_sq t]

theorem id_inv : I.inv = I := by
  rw [Mat3.inv, I, Mat3.det]; norm_num

theorem atan2_zero_zero : atan2 0 0 = 0 := by
  rw [atan2]; norm_num

theorem atan2_of_pos_x {y x : ℝ} (hx : 0 < x) :
    atan2 y x = Real.arctan (y / x) := by
  rw [atan2, if_pos hx]

theorem atan2_of_pos_y_zero_x {y : ℝ} (hy : 0 < y) :
    atan2 y 0 = Real.pi / 2 := by
  rw [atan2, if_neg (lt_irrefl 0), if_neg (lt_irrefl 0), if_pos hy]

theorem atan2_zero_of_pos_x {x : ℝ} (hx : 0 < x) : atan2 0 x = 0 := by
  rw [atan2_of_pos_x hx, zero_div, Real.arctan_zero]

/-! ### Claim C10 -/

/-- C10: _anglesToVirtualAngles is total: for every position and positive
wavelength it returns ok with all seven virtual angles (the asin/acos
arguments are clamped by bound, the psi divisions are guarded by exact
zero tests), never an error. -/
theorem C10_anglesToVirtualAngles_total (pos : YouPosition) (wl : ℝ)
    (hwl : 0 < wl) :
    ∃ va, anglesToVirtualAngles pos wl = .ok va := by
  rw [anglesToVirtualAngles, theta_and_qaz_from_detector_angles]
  simp only [acosE_bound_ok, asinE_bound_ok, exceptBindOk, exceptPure,
    bind, Except.bind]
  split
  · exact ⟨_, rfl⟩
  · split
    · exact ⟨_, rfl⟩
    · exact ⟨_, rfl⟩

/-- Witness for C10 at the all-zeros position and wavelength 1. -/
theorem C10_witness :
    (0 : ℝ) < 1 ∧ ∃ va, anglesToVirtualAngles ⟨0, 0, 0, 0, 0, 0⟩ 1 = .ok va :=
  ⟨by norm_num, C10_anglesToVirtualAngles_total ⟨0, 0, 0, 0, 0, 0⟩ 1 (by norm_num)⟩

/-! ### Concrete evaluations of the virtual angles -/

theorem bound_zero : bound 0 = 0 := bound_eq_self (by norm_num) (by norm_num)

theorem bound_one : bound 1 = 1 := bound_eq_self (by norm_num) (by norm_num)

theorem asinE_zero : asinE (0 : ℝ) = .ok 0 := by
  rw [asinE_ok (by norm_num), Real.arcsin_zero]

theorem acosE_zero : acosE (0 : ℝ) = .ok (Real.pi / 2) := by
  rw [acosE_ok (by norm_num), Real.arccos_zero]

theorem acosE_one : acosE (1 : ℝ) = .ok 0 := by
  rw [acosE_ok (by norm_num), Real.arccos_one]

/-- Virtual angles at a position with only chi nonzero, chi in
(0, pi/2): tau equals chi and psi is defined. -/
theorem vaEval_chi (c : ℝ) (h0 : 0 < c) (hlt : c < Real.pi / 2) :
    anglesToVirtualAngles ⟨0, 0, 0, 0, c, 0⟩ 1 =
      .ok ⟨0, 0, 0, c, c, some (Real.pi / 2), 0⟩ := by
  have hpi := Real.pi_gt_three
  have hcpos : 0 < Real.cos c :=
    Real.cos_pos_of_mem_Ioo ⟨by linarith, hlt⟩
  have hspos : 0 < Real.sin c :=
    Real.sin_pos_of_pos_of_lt_pi h0 (by linarith)
  have hcle : c ≤ Real.pi := by linarith
  have hZ : (((calcMU 0).mul (calcETA 0)).mul (calcCHI c)).mul (calcPHI 0) =
      y_rotation c := by
    rw [calcMU, calcETA, calcCHI, calcPHI, x_rotation_zero, z_rotation_zero,
      id_mul, mul_id, id_mul]
  have hn : (y_rotation c).mulVec n_phi = ⟨Real.sin c, 0, Real.cos c⟩ := by
    rw [y_rotation, n_phi, Mat3.mulVec]; ext <;> simp
  have hnaz : atan2 (Real.sin c) (Real.cos c) = c := by
    rw [atan2_of_pos_x hcpos, ← Real.tan_eq_sin_div_cos,
      Real.arctan_tan (by linarith) hlt]
  have hboundcos : bound (Real.cos c) = Real.cos c :=
    bound_eq_self (Real.neg_one_le_cos c) (Real.cos_le_one c)
  have hacoscos : acosE (Real.cos c) = .ok c := by
    rw [acosE_ok (Real.abs_cos_le_one c), Real.arccos_cos h0.le hcle]
  rw [anglesToVirtualAngles, theta_and_qaz_from_detector_angles]
  simp only [Real.cos_zero, Real.sin_zero, Real.tan_zero, one_mul, mul_one,
    bound_one, acosE_one, exceptBindOk, exceptPure, bind, Except.bind,
    zero_div, atan2_zero_zero, hZ, hn, neg_zero, bound_zero, asinE_zero,
    hnaz, sub_zero, mul_zero, zero_mul, add_zero, zero_add, zero_sub,
    hboundcos, hacoscos, hspos.ne', acosE_zero]
  norm_num

/-- Virtual angles at the all-zeros position: tau is zero, so psi is the
NaN marker none. -/
theorem vaEval_zero :
    anglesToVirtualAngles ⟨0, 0, 0, 0, 0, 0⟩ 1 =
      .ok ⟨0, 0, 0, 0, 0, none, 0⟩ := by
  have hZ : (((calcMU 0).mul (calcETA 0)).mul (calcCHI 0)).mul (calcPHI 0) =
      I := by
    rw [calcMU, calcETA, calcCHI, calcPHI, x_rotation_zero, z_rotation_zero,
      y_rotation_zero, id_mul, mul_id, id_mul]
  have hn : I.mulVec n_phi = ⟨0, 0, 1⟩ := by rw [n_phi, id_mulVec]
  have hnaz : atan2 (0 : ℝ) 1 = 0 := atan2_zero_of_pos_x (by norm_num)
  rw [anglesToVirtualAngles, theta_and_qaz_from_detector_angles]
  simp only [Real.cos_zero, Real.sin_zero, Real.tan_zero, one_mul, mul_one,
    bound_one, acosE_one, exceptBindOk, exceptPure, bind, Except.bind,
    zero_div, atan2_zero_zero, hZ, hn, neg_zero, bound_zero, asinE_zero,
    hnaz, sub_zero, mul_zero, zero_mul, add_zero, zero_add, zero_sub]
  norm_num

/-! ### Claim C7 -/

/-- C7 counterexample: at the position with chi = 1e-9 and every other
angle zero the computed tau is 1e-9, whose sine is within SMALL of zero,
yet psi is the real value pi/2 rather than NaN: the claim that psi is NaN
exactly when sin(tau) is within 1e-8 of zero fails, because the source
tests sin(tau) == 0 exactly. -/
theorem C7_counterexample :
    anglesToVirtualAngles ⟨0, 0, 0, 0, 1e-9, 0⟩ 1 =
      .ok ⟨0, 0, 0, 1e-9, 1e-9, some (Real.pi / 2), 0⟩ ∧
    is_small (Real.sin (1e-9)) ∧
    (some (Real.pi / 2) : Option ℝ) ≠ none := by
  have hpi := Real.pi_gt_three
  refine ⟨vaEval_chi 1e-9 (by norm_num) (by nlinarith), ?_, by simp⟩
  have h1 : Real.sin (1e-9) < 1e-9 := Real.sin_lt (by norm_num)
  have h2 : 0 < Real.sin (1e-9) :=
    Real.sin_pos_of_pos_of_lt_pi (by norm_num) (by nlinarith)
  rw [is_small, SMALL, abs_of_pos h2]
  linarith

/-- C7 amended: psi is NaN (none) exactly when sin(tau) or cos(theta) is
exactly zero (the source tests == 0, not a tolerance); otherwise psi is
the real value acos(bound((cos(tau) sin(theta) - sin(alpha)) /
(sin(tau) cos(theta)))). -/
theorem C7_psi_nan_characterisation (pos : YouPosition) (wl : ℝ)
    (va : VirtualAngles)
    (hok : anglesToVirtualAngles pos wl = .ok va) :
    (va.psi = none ↔ Real.sin va.tau = 0 ∨ Real.cos va.theta = 0) ∧
    (∀ p, va.psi = some p →
      p = Real.arccos (bound ((Real.cos va.tau * Real.sin va.theta -
        Real.sin va.alpha) / (Real.sin va.tau * Real.cos va.theta)))) := by
  rw [anglesToVirtualAngles, theta_and_qaz_from_detector_angles] at hok
  simp only [acosE_bound_ok, asinE_bound_ok, exceptBindOk, exceptPure,
    bind, Except.bind] at hok
  split at hok
  case isTrue hA =>
    cases hok
    constructor
    · simp only [true_iff]
      exact Or.inl hA
    · intro p hp; simp at hp
  case isFalse hA =>
    split at hok
    case isTrue hB =>
      cases hok
      constructor
      · simp only [true_iff]
        exact Or.inr hB
      · intro p hp; simp at hp
    case isFalse hB =>
      cases hok
      constructor
      · constructor
        · intro h; simp at h
        · intro h; exact absurd h (by simp [hA, hB])
      · intro p hp
        simpa using hp.symm

/-- Witness for the amended C7 at the all-zeros position, where tau is
exactly zero and psi is indeed none. -/
theorem C7_witness :
    ((none : Option ℝ) = none ↔ Real.sin (0 : ℝ) = 0 ∨ Real.cos (0 : ℝ) = 0) :=
  (C7_psi_nan_characterisation ⟨0, 0, 0, 0, 0, 0⟩ 1 ⟨0, 0, 0, 0, 0, none, 0⟩
    vaEval_zero).1

/-! ### Claim C6 -/

theorem exceptThrow {α : Type} (e : PyErr) :
    (throw e : Except PyErr α) = .error e := rfl

theorem asinE_err {x : ℝ} (h : 1 < |x|) : asinE x = .error .valueError := by
  rw [asinE, if_neg (not_le.mpr h)]

/-- C6 counterexample: with the a_eq_b constraint, theta = 0 and
tau = 1e-9, sin(tau) is within 1e-8 of zero, yet
_calc_remaining_reference_angles succeeds and returns
(pi/2, 0, 0): the claimed failure for sin(tau) within tolerance of zero
does not occur because the source tests sin(tau) == 0 exactly. -/
theorem C6_counterexample :
    calc_remaining_reference_angles ("a_eq_b") 0 0 (1e-9) =
      .ok (Real.pi / 2, 0, 0) ∧
    is_small (Real.sin (1e-9)) := by
  have hpi := Real.pi_gt_three
  have hs : 0 < Real.sin (1e-9) :=
    Real.sin_pos_of_pos_of_lt_pi (by norm_num) (by nlinarith)
  constructor
  · rw [calc_remaining_reference_angles]
    simp only [hs.ne', Real.cos_zero, Real.sin_zero, mul_zero, zero_mul,
      mul_one, one_mul, bound_zero, asinE_zero, exceptBindOk, exceptPure,
      exceptThrow, String.reduceEq, bind, Except.bind, zero_div, acosE_zero, sub_zero,
      if_false, reduceIte]
    norm_num
  · have h1 : Real.sin (1e-9) < 1e-9 := Real.sin_lt (by norm_num)
    rw [is_small, SMALL, abs_of_pos hs]
    linarith

/-- C6 amended: _calc_remaining_reference_angles fails with
DiffcalcException when sin(tau) or cos(theta) is exactly zero (not within
tolerance); for psi the two derived sines are checked against 1 + SMALL
(DiffcalcException beyond that) and clamped before asin; the alpha branch
applies asin unguarded, so a derived sine of magnitude above 1 raises a
ValueError (math domain error) instead; the beta branch checks only
against 1 + SMALL and then applies an unclamped asin, so magnitudes in
(1, 1 + SMALL] also raise ValueError; otherwise psi, alpha, beta are
returned without error. -/
theorem C6_reference_angles_characterisation (name : String)
    (value θ τ : ℝ) :
    ((Real.sin τ = 0 ∨ Real.cos θ = 0) →
      calc_remaining_reference_angles name value θ τ =
        .error .diffcalcException) ∧
    (Real.sin τ ≠ 0 → Real.cos θ ≠ 0 →
      (name = "a_eq_b" →
        ∃ pab, calc_remaining_reference_angles name value θ τ = .ok pab) ∧
      (name = "psi" →
        ((|Real.cos τ * Real.sin θ - Real.cos θ * Real.sin τ * Real.cos value|
            > 1 + SMALL ∨
          |Real.cos τ * Real.sin θ + Real.cos θ * Real.sin τ * Real.cos value|
            > 1 + SMALL) →
          calc_remaining_reference_angles name value θ τ =
            .error .diffcalcException) ∧
        (|Real.cos τ * Real.sin θ - Real.cos θ * Real.sin τ * Real.cos value|
            ≤ 1 + SMALL →
         |Real.cos τ * Real.sin θ + Real.cos θ * Real.sin τ * Real.cos value|
            ≤ 1 + SMALL →
          ∃ pab, calc_remaining_reference_angles name value θ τ = .ok pab)) ∧
      (name = "alpha" →
        (|2 * Real.sin θ * Real.cos τ - Real.sin value| ≤ 1 →
          ∃ pab, calc_remaining_reference_angles name value θ τ = .ok pab) ∧
        (1 < |2 * Real.sin θ * Real.cos τ - Real.sin value| →
          calc_remaining_reference_angles name value θ τ =
            .error .valueError)) ∧
      (name = "beta" →
        (1 + SMALL < |2 * Real.sin θ * Real.cos τ - Real.sin value| →
          calc_remaining_reference_angles name value θ τ =
            .error .diffcalcException) ∧
        (|2 * Real.sin θ * Real.cos τ - Real.sin value| ≤ 1 →
          ∃ pab, calc_remaining_reference_angles name value θ τ = .ok pab) ∧
        (1 < |2 * Real.sin θ * Real.cos τ - Real.sin value| →
         |2 * Real.sin θ * Real.cos τ - Real.sin value| ≤ 1 + SMALL →
          calc_remaining_reference_angles name value θ τ =
            .error .valueError))) := by
  constructor
  · intro h
    rw [calc_remaining_reference_angles]
    by_cases hst : Real.sin τ = 0
    · simp only [hst, exceptThrow, String.reduceEq, bind, Except.bind, if_pos, reduceIte]
    · have hct : Real.cos θ = 0 := h.resolve_left hst
      simp only [hst, hct, exceptThrow, String.reduceEq, bind, Except.bind, if_false,
        reduceIte, exceptBindOk, exceptPure]
  · intro hst hct
    refine ⟨?_, ?_, ?_, ?_⟩
    · intro hname
      subst hname
      rw [calc_remaining_reference_angles]
      simp only [hst, hct, exceptThrow, String.reduceEq, bind, Except.bind, if_false,
        reduceIte, exceptBindOk, exceptPure, asinE_bound_ok, acosE_bound_ok]
      exact ⟨_, rfl⟩
    · intro hname
      subst hname
      constructor
      · intro h
        rw [calc_remaining_reference_angles]
        rcases h with h | h
        · simp only [hst, hct, exceptThrow, String.reduceEq, bind, Except.bind, if_false,
            reduceIte, exceptBindOk, exceptPure, h, if_true]
        · by_cases hsa : |Real.cos τ * Real.sin θ -
              Real.cos θ * Real.sin τ * Real.cos value| > 1 + SMALL
          · simp only [hst, hct, exceptThrow, String.reduceEq, bind, Except.bind, if_false,
              reduceIte, exceptBindOk, exceptPure, hsa, if_true]
          · simp only [hst, hct, exceptThrow, String.reduceEq, bind, Except.bind, if_false,
              reduceIte, exceptBindOk, exceptPure, hsa, asinE_bound_ok, h,
              if_true]
      · intro hsa hsb
        rw [calc_remaining_reference_angles]
        simp only [hst, hct, exceptThrow, String.reduceEq, bind, Except.bind, if_false,
          reduceIte, exceptBindOk, exceptPure, not_lt.mpr hsa,
          not_lt.mpr hsb, asinE_bound_ok, acosE_bound_ok]
        exact ⟨_, rfl⟩
    · intro hname
      subst hname
      constructor
      · intro h
        rw [calc_remaining_reference_angles]
        simp only [hst, hct, exceptThrow, String.reduceEq, bind, Except.bind, if_false,
          reduceIte, exceptBindOk, exceptPure, asinE_ok h, acosE_bound_ok]
        exact ⟨_, rfl⟩
      · intro h
        rw [calc_remaining_reference_angles]
        simp only [hst, hct, exceptThrow, String.reduceEq, bind, Except.bind, if_false,
          reduceIte, exceptBindOk, exceptPure, asinE_err h]
    · intro hname
      subst hname
      refine ⟨?_, ?_, ?_⟩
      · intro h
        rw [calc_remaining_reference_angles]
        simp only [hst, hct, exceptThrow, String.reduceEq, bind, Except.bind, if_false,
          reduceIte, exceptBindOk, exceptPure, h, if_true]
      · intro h
        rw [calc_remaining_reference_angles]
        have hns : ¬ (|2 * Real.sin θ * Real.cos τ - Real.sin value| >
            1 + SMALL) := by
          rw [not_lt]
          calc |2 * Real.sin θ * Real.cos τ - Real.sin value| ≤ 1 := h
            _ ≤ 1 + SMALL := by nlinarith [SMALL_pos]
        simp only [hst, hct, exceptThrow, String.reduceEq, bind, Except.bind, if_false,
          reduceIte, exceptBindOk, exceptPure, hns, asinE_ok h,
          acosE_bound_ok]
        exact ⟨_, rfl⟩
      · intro h1 h2
        rw [calc_remaining_reference_angles]
        simp only [hst, hct, exceptThrow, String.reduceEq, bind, Except.bind, if_false,
          reduceIte, exceptBindOk, exceptPure, not_lt.mpr h2, asinE_err h1]

/-- Witness for the amended C6: the a_eq_b branch succeeds at theta = 0,
tau = 1e-9 where both exact-zero guards pass. -/
theorem C6_witness :
    ∃ pab, calc_remaining_reference_angles ("a_eq_b") 0 0 (1e-9) =
      .ok pab := by
  have hpi := Real.pi_gt_three
  have hs : 0 < Real.sin (1e-9) :=
    Real.sin_pos_of_pos_of_lt_pi (by norm_num) (by nlinarith)
  exact ((C6_reference_angles_characterisation ("a_eq_b") 0 0 (1e-9)).2
    hs.ne' (by rw [Real.cos_zero]; norm_num)).1 rfl

/-! ### List helper lemmas -/

theorem list_min_mem : (l : List ℝ) → l ≠ [] → list_min l ∈ l
  | [], h => absurd rfl h
  | [a], _ => by simp [list_min]
  | a :: b :: rest, _ => by
    rw [list_min]
    rcases le_total a (list_min (b :: rest)) with h | h
    · rw [min_eq_left h]; exact List.mem_cons_self _ _
    · rw [min_eq_right h]
      exact List.mem_cons_of_mem _ (list_min_mem (b :: rest) (by simp))

theorem list_min_le : (l : List ℝ) → ∀ x ∈ l, list_min l ≤ x
  | [], x, hx => absurd hx (List.not_mem_nil x)
  | [a], x, hx => by
    rcases List.mem_singleton.mp hx with rfl
    simp [list_min]
  | a :: b :: rest, x, hx => by
    rw [list_min]
    rcases List.mem_cons.mp hx with rfl | hx
    · exact min_le_left _ _
    · exact le_trans (min_le_right _ _) (list_min_le (b :: rest) x hx)

theorem findIdx_lt_length_of_mem {l : List ℝ} {v : ℝ} (h : v ∈ l) :
    first_index_of l v < l.length := by
  induction l with
  | nil => simp at h
  | cons a rest ih =>
    rw [first_index_of, List.findIdx_cons]
    by_cases hav : a = v
    · simp [hav]
    · have hd : decide (a = v) = false := by simp [hav]
      rw [hd]
      simp only [cond_false, List.length_cons]
      have h' : v ∈ rest := by
        rcases List.mem_cons.mp h with rfl | h
        · exact absurd rfl hav
        · exact h
      have := ih h'
      rw [first_index_of] at this
      omega

theorem getD_mem {α : Type} {l : List α} {i : ℕ} {d : α}
    (h : i < l.length) : l.getD i d ∈ l := by
  induction l generalizing i with
  | nil => simp at h
  | cons a rest ih =>
    cases i with
    | zero => simp
    | succ n =>
      simp only [List.getD_cons_succ]
      exact List.mem_cons_of_mem _ (ih (by simpa using h))

theorem expand_nil_right (acc : List (List ℝ)) : expand acc [] = [] := by
  induction acc with
  | nil => rfl
  | cons t rest ih => simp [expand] at ih ⊢

theorem flatten_map_nil {α β : Type} (l : List α) :
    (l.map (fun _ => ([] : List β))).flatten = [] := by
  induction l with
  | nil => rfl
  | cons a rest ih => simpa using ih

/-- The two-axis instance of _generate_possible_solutions is the ordered
cross-product of the per-axis candidate lists. -/
theorem gen_two (hw : Hardware) (a b : ℝ) (na nb : String)
    (c : List String) :
    generate_possible_solutions hw [a, b] [na, nb] c =
      ((axis_candidates hw a na c).map
        (fun x => (axis_candidates hw b nb c).map (fun y => [x, y]))).flatten := by
  rw [generate_possible_solutions]
  simp only [List.zip_cons_cons, List.zip_nil_left, List.map_cons,
    List.map_nil, List.foldl_cons, List.foldl_nil]
  rw [expand]
  simp only [List.map_map]
  simp [Function.comp_def]

theorem mem_axis_candidates {hw : Hardware} {v : ℝ} {name : String}
    {cns : List String} {x : ℝ} (h : x ∈ axis_candidates hw v name cns) :
    ∃ t ∈ generate_transformed_values v (decide (name ∈ cns)),
      hw.isAxisValueWithinLimits name (hw.cutAngle name (t * TODEG)) = true ∧
      x = cut_at_minus_pi t := by
  rw [axis_candidates] at h
  rcases List.mem_map.mp h with ⟨t, ht, rfl⟩
  rcases List.mem_filter.mp ht with ⟨ht1, ht2⟩
  exact ⟨t, ht1, ht2, rfl⟩

theorem axis_candidates_nil {hw : Hardware} {v : ℝ} {name : String}
    {cns : List String}
    (h : ∀ t ∈ generate_transformed_values v (decide (name ∈ cns)),
      hw.isAxisValueWithinLimits name (hw.cutAngle name (t * TODEG)) = false) :
    axis_candidates hw v name cns = [] := by
  rw [axis_candidates]
  have : (generate_transformed_values v (decide (name ∈ cns))).filter
      (fun tv => hw.isAxisValueWithinLimits name
        (hw.cutAngle name (tv * TODEG))) = [] := by
    rw [List.filter_eq_nil]
    intro t ht
    rw [h t ht]
    simp
  rw [this, List.map_nil]

theorem filter_det_subset :
    (l : List (ℝ × ℝ)) → ∀ {θ q : ℝ} {l' : List (ℝ × ℝ)},
    filter_detector_solutions_by_theta_and_qaz l θ q = .ok l' → l' ⊆ l
  | [], θ, q, l', h => by
    rw [filter_detector_solutions_by_theta_and_qaz] at h
    cases h
    exact fun x hx => hx
  | (d, n) :: rest, θ, q, l', h => by
    rw [filter_detector_solutions_by_theta_and_qaz] at h
    cases htq : theta_and_qaz_from_detector_angles d n with
    | error e => rw [htq] at h; simp [bind, Except.bind] at h
    | ok tq =>
      rw [htq] at h
      cases hr : filter_detector_solutions_by_theta_and_qaz rest θ q with
      | error e => rw [hr] at h; simp [bind, Except.bind] at h
      | ok rest' =>
        rw [hr] at h
        simp only [bind, Except.bind] at h
        have hsub := filter_det_subset rest hr
        split at h
        · cases h
          intro x hx
          rcases List.mem_cons.mp hx with rfl | hx
          · exact List.mem_cons_self _ _
          · exact List.mem_cons_of_mem _ (hsub hx)
        · cases h
          exact fun x hx => List.mem_cons_of_mem _ (hsub hx)

theorem thetas_of_length :
    (l : List (ℝ × ℝ)) → ∀ {l' : List ℝ}, thetas_of l = .ok l' →
      l'.length = l.length
  | [], l', h => by
    rw [thetas_of] at h
    cases h
    rfl
  | p :: rest, l', h => by
    rw [thetas_of] at h
    cases htq : theta_and_qaz_from_detector_angles p.1 p.2 with
    | error e => rw [htq] at h; simp [bind, Except.bind] at h
    | ok tq =>
      rw [htq] at h
      cases hr : thetas_of rest with
      | error e => rw [hr] at h; simp [bind, Except.bind] at h
      | ok rest' =>
        rw [hr] at h
        simp only [bind, Except.bind, exceptPure] at h
        cases h
        simp [thetas_of_length rest hr]

theorem prune_subset {l : List (ℝ × ℝ)} {θ : ℝ} {l' : List (ℝ × ℝ)}
    (h : prune_close_to_90 l θ = .ok l') : l' ⊆ l := by
  rw [prune_close_to_90] at h
  split at h
  · simp only at h
    split at h
    case isTrue hne =>
      cases hth : thetas_of (l.filter (fun p => decide (close_to_90 p.1))) with
      | error e => rw [hth] at h; simp [bind, Except.bind] at h
      | ok thetas =>
        rw [hth] at h
        simp only [bind, Except.bind, exceptPure] at h
        cases h
        intro x hx
        rcases List.mem_append.mp hx with hx | hx
        · exact (List.mem_filter.mp hx).1
        · rcases List.mem_singleton.mp hx with rfl
          have hlen : (thetas.map (fun t => |t - θ|)).length =
              (l.filter (fun p => decide (close_to_90 p.1))).length := by
            rw [List.length_map]
            exact thetas_of_length _ hth
          have hmem : list_min (thetas.map (fun t => |t - θ|)) ∈
              thetas.map (fun t => |t - θ|) := by
            apply list_min_mem
            intro hnil
            apply hne
            have := congrArg List.length hnil
            rw [hlen] at this
            exact List.length_eq_zero.mp this
          have hidx := findIdx_lt_length_of_mem hmem
          rw [first_index_of] at hidx
          have : (l.filter (fun p => decide (close_to_90 p.1))).getD
              (first_index_of (thetas.map (fun t => |t - θ|))
                (list_min (thetas.map (fun t => |t - θ|)))) (0, 0) ∈
              l.filter (fun p => decide (close_to_90 p.1)) := by
            apply getD_mem
            rw [← hlen]
            exact hidx
          exact (List.mem_filter.mp this).1
    case isFalse hne =>
      cases h
      exact fun x hx => hx
  · cases h
    exact fun x hx => hx

theorem choose_det_ok_mem {l : List (ℝ × ℝ)} {p : ℝ × ℝ}
    (h : choose_detector_angles l = .ok p) : p ∈ l := by
  match l with
  | [] =>
    rw [show choose_detector_angles [] = .error .noSolutionException
      from rfl] at h
    cases h
  | [a] =>
    rw [show choose_detector_angles [a] = .ok a from rfl] at h
    cases h
    exact List.mem_cons_self _ _
  | a :: b :: rest =>
    rw [choose_detector_angles,
      if_pos (by simp only [List.length_cons]; omega :
        (a :: b :: rest).length > 1)] at h
    simp [exceptThrow] at h

/-! ### Claim C5 -/

/-- C5 counterexample: with initial delta exactly 90 degrees, nu
unconstrained (detector constraint qaz) and a hardware collaborator that
rejects every value, _generate_final_detector_angles returns
(pi/2, 0) through the degenerate shortcut instead of raising NoSolution,
and the returned delta itself fails the hardware limit check. -/
theorem C5_counterexample :
    generate_final_detector_angles
      ⟨[], [(("qaz" : String), Real.pi / 2)], [], []⟩ hwFalse
      (Real.pi / 2) 0 (Real.pi / 2) (Real.pi / 6) ("qaz") =
      .ok (Real.pi / 2, 0) ∧
    hwFalse.isAxisValueWithinLimits ("delta")
      (hwFalse.cutAngle ("delta") (Real.pi / 2 * TODEG)) = false := by
  constructor
  · have hcond : ne (Real.pi / 2) (Real.pi / 2) ∧
        "nu" ∉ keys ((⟨[], [(("qaz" : String), Real.pi / 2)], [], []⟩ :
          Constraints)).detector := by
      constructor
      · rw [ne, sub_self, is_small, abs_zero]
        exact SMALL_pos
      · simp [keys]
    rw [generate_final_detector_angles, if_pos hcond]
    rfl
  · rfl

/-- C5 amended: outside the delta-at-90-with-nu-unconstrained shortcut
(which returns (delta, 0) with no limit check), whenever every
transformed candidate for delta, or every transformed candidate for nu,
fails the hardware limit check, _generate_final_detector_angles raises
NoSolutionException; and any returned pair consists of cut_at_minus_pi
images of limit-checked candidate values. -/
theorem C5_detector_limit_boundary (cons : Constraints) (hw : Hardware)
    (d0 n0 qaz θ : ℝ) (det_name : String)
    (hns : ¬ (ne d0 (Real.pi / 2) ∧ "nu" ∉ keys cons.detector)) :
    (((∀ t ∈ generate_transformed_values d0 (decide (("delta" : String) ∈ [det_name])),
        hw.isAxisValueWithinLimits ("delta")
          (hw.cutAngle ("delta") (t * TODEG)) = false) ∨
      (∀ t ∈ generate_transformed_values n0 (decide (("nu" : String) ∈ [det_name])),
        hw.isAxisValueWithinLimits ("nu")
          (hw.cutAngle ("nu") (t * TODEG)) = false)) →
      generate_final_detector_angles cons hw d0 n0 qaz θ det_name =
        .error .noSolutionException) ∧
    (∀ d n, generate_final_detector_angles cons hw d0 n0 qaz θ det_name =
        .ok (d, n) →
      (∃ t ∈ generate_transformed_values d0 (decide (("delta" : String) ∈ [det_name])),
        hw.isAxisValueWithinLimits ("delta")
          (hw.cutAngle ("delta") (t * TODEG)) = true ∧
        d = cut_at_minus_pi t) ∧
      (∃ t ∈ generate_transformed_values n0 (decide (("nu" : String) ∈ [det_name])),
        hw.isAxisValueWithinLimits ("nu")
          (hw.cutAngle ("nu") (t * TODEG)) = true ∧
        n = cut_at_minus_pi t)) := by
  constructor
  · intro hall
    have hposs : as_pairs (generate_possible_solutions hw [d0, n0]
        (["delta", "nu"]) [det_name]) = [] := by
      rw [gen_two]
      rcases hall with hall | hall
      · rw [axis_candidates_nil hall]
        rfl
      · rw [axis_candidates_nil hall]
        simp only [List.map_nil]
        rw [flatten_map_nil]
        rfl
    simp only [generate_final_detector_angles]
    rw [if_neg hns, hposs]
    rw [show filter_detector_solutions_by_theta_and_qaz [] θ qaz =
      .ok [] from rfl]
    simp only [bind, Except.bind]
    rw [show prune_close_to_90 [] θ = .ok [] from rfl]
    rfl
  · intro d n hok
    simp only [generate_final_detector_angles] at hok
    rw [if_neg hns] at hok
    cases hfil : filter_detector_solutions_by_theta_and_qaz
        (as_pairs (generate_possible_solutions hw [d0, n0]
          (["delta", "nu"]) [det_name])) θ qaz with
    | error e => rw [hfil] at hok; simp [bind, Except.bind] at hok
    | ok l1 =>
      rw [hfil] at hok
      simp only [bind, Except.bind] at hok
      cases hpr : prune_close_to_90 l1 θ with
      | error e => rw [hpr] at hok; simp at hok
      | ok l2 =>
        rw [hpr] at hok
        simp only at hok
        have hm : (d, n) ∈ l2 := choose_det_ok_mem hok
        have hm1 : (d, n) ∈ l1 := prune_subset hpr hm
        have hm0 := filter_det_subset _ hfil hm1
        rw [gen_two] at hm0
        rw [as_pairs] at hm0
        rcases List.mem_map.mp hm0 with ⟨l, hl, hdn⟩
        rcases List.mem_flatten.mp hl with ⟨inner, hinner, hlin⟩
        rcases List.mem_map.mp hinner with ⟨x, hx, rfl⟩
        rcases List.mem_map.mp hlin with ⟨y, hy, rfl⟩
        have hxy : ((x, y) : ℝ × ℝ) = (d, n) := hdn
        obtain ⟨rfl, rfl⟩ : x = d ∧ y = n :=
          ⟨congrArg Prod.fst hxy, congrArg Prod.snd hxy⟩
        rcases mem_axis_candidates hx with ⟨t1, ht1, hc1, hx1⟩
        rcases mem_axis_candidates hy with ⟨t2, ht2, hc2, hy1⟩
        exact ⟨⟨t1, ht1, hc1, hx1⟩, ⟨t2, ht2, hc2, hy1⟩⟩

/-- Witness for the amended C5: with the all-rejecting hardware and
initial delta 60 degrees (not the shortcut), the result is NoSolution;
and the fixture hardware solve returns a pair built from checked
candidates. -/
theorem C5_witness :
    generate_final_detector_angles
      ⟨[], [(("qaz" : String), Real.pi / 2)], [], []⟩ hwFalse
      (Real.pi / 3) 0 (Real.pi / 2) (Real.pi / 6) ("qaz") =
      .error .noSolutionException := by
  have hpi := Real.pi_gt_three
  have hpi2 := Real.pi_lt_315
  have hns : ¬ (ne (Real.pi / 3) (Real.pi / 2) ∧
      "nu" ∉ keys (⟨[], [(("qaz" : String), Real.pi / 2)], [], []⟩ :
        Constraints).detector) := by
    intro hcon
    have := hcon.1
    rw [ne, is_small] at this
    have h1 : Real.pi / 3 - Real.pi / 2 = -(Real.pi / 6) := by ring
    rw [h1, abs_neg, abs_of_pos (by linarith)] at this
    rw [SMALL] at this
    linarith
  exact (C5_detector_limit_boundary _ hwFalse (Real.pi / 3) 0
    (Real.pi / 2) (Real.pi / 6) ("qaz") hns).1
    (Or.inl (fun t _ => rfl))

/-! ### More list index lemmas, for the canonical-choice claim -/

theorem first_index_getD {l : List ℝ} {v : ℝ} (h : v ∈ l) (d : ℝ) :
    l.getD (first_index_of l v) d = v := by
  induction l with
  | nil => simp at h
  | cons a rest ih =>
    rw [first_index_of, List.findIdx_cons]
    by_cases hav : a = v
    · simp [hav]
    · have hd : decide (a = v) = false := by simp [hav]
      rw [hd]
      simp only [cond_false]
      have h' : v ∈ rest := by
        rcases List.mem_cons.mp h with rfl | h
        · exact absurd rfl hav
        · exact h
      rw [List.getD_cons_succ]
      rw [first_index_of] at ih
      exact ih h'

theorem first_index_lt_ne {l : List ℝ} {v : ℝ} {j : ℕ} (d : ℝ)
    (hj : j < first_index_of l v) : l.getD j d ≠ v := by
  induction l generalizing j with
  | nil =>
    rw [first_index_of, List.findIdx_nil] at hj
    omega
  | cons a rest ih =>
    rw [first_index_of, List.findIdx_cons] at hj
    by_cases hav : a = v
    · simp [hav] at hj
    · have hd : decide (a = v) = false := by simp [hav]
      rw [hd] at hj
      simp only [cond_false] at hj
      cases j with
      | zero => simpa using hav
      | succ n =>
        rw [List.getD_cons_succ]
        apply ih
        rw [first_index_of]
        omega

theorem map_getD {α β : Type} (f : α → β) :
    (l : List α) → (i : ℕ) → i < l.length → ∀ (d : α) (d' : β),
      (l.map f).getD i d' = f (l.getD i d)
  | [], i, h, _, _ => absurd h (by simp)
  | a :: rest, 0, _, d, d' => by simp
  | a :: rest, n + 1, h, d, d' => by
    simp only [List.map_cons, List.getD_cons_succ]
    exact map_getD f rest n (by simpa using h) d d'

/-- Everything _choose_sample_angles guarantees about a returned tuple:
membership, global minimality of the absolute-distance sum, and being the
first tuple (in enumeration order) attaining that minimum. -/
theorem choose_sample_ok {out : List (ℝ × ℝ × ℝ × ℝ)} {t : ℝ × ℝ × ℝ × ℝ}
    (h : choose_sample_angles out = .ok t) :
    t ∈ out ∧ (∀ u ∈ out, sum_abs4 t ≤ sum_abs4 u) ∧
    ∃ i, i < out.length ∧ out.getD i (0, 0, 0, 0) = t ∧
      ∀ j, j < i → sum_abs4 t < sum_abs4 (out.getD j (0, 0, 0, 0)) := by
  match out with
  | [] =>
    rw [show choose_sample_angles [] = .error .noSolutionException
      from rfl] at h
    cases h
  | [a] =>
    rw [show choose_sample_angles [a] = .ok a from rfl] at h
    cases h
    refine ⟨List.mem_cons_self _ _, ?_, 0, by simp, rfl, ?_⟩
    · intro u hu
      rcases List.mem_singleton.mp hu with rfl
      exact le_refl _
    · intro j hj
      omega
  | a :: b :: rest =>
    have hc : choose_sample_angles (a :: b :: rest) =
        .ok ((a :: b :: rest).getD
          (first_index_of ((a :: b :: rest).map sum_abs4)
            (list_min ((a :: b :: rest).map sum_abs4))) (0, 0, 0, 0)) := rfl
    rw [hc] at h
    cases h
    have hne : (a :: b :: rest).map sum_abs4 ≠ [] := by simp
    have hmmem : list_min ((a :: b :: rest).map sum_abs4) ∈
        (a :: b :: rest).map sum_abs4 := list_min_mem _ hne
    have hidx : first_index_of ((a :: b :: rest).map sum_abs4)
        (list_min ((a :: b :: rest).map sum_abs4)) <
        ((a :: b :: rest).map sum_abs4).length :=
      findIdx_lt_length_of_mem hmmem
    have hlen : ((a :: b :: rest).map sum_abs4).length =
        (a :: b :: rest).length := List.length_map _ _
    have hidx' : first_index_of ((a :: b :: rest).map sum_abs4)
        (list_min ((a :: b :: rest).map sum_abs4)) <
        (a :: b :: rest).length := by
      rw [← hlen]; exact hidx
    have hsum : sum_abs4 ((a :: b :: rest).getD
        (first_index_of ((a :: b :: rest).map sum_abs4)
          (list_min ((a :: b :: rest).map sum_abs4))) (0, 0, 0, 0)) =
        list_min ((a :: b :: rest).map sum_abs4) := by
      rw [← map_getD sum_abs4 (a :: b :: rest) _ hidx' (0, 0, 0, 0)
        (sum_abs4 (0, 0, 0, 0))]
      exact first_index_getD hmmem _
    refine ⟨getD_mem hidx', ?_, _, hidx', rfl, ?_⟩
    · intro u hu
      rw [hsum]
      exact list_min_le _ _ (List.mem_map_of_mem sum_abs4 hu)
    · intro j hj
      have hjlt : j < (a :: b :: rest).length := lt_trans hj hidx'
      have hne2 : ((a :: b :: rest).map sum_abs4).getD j
          (sum_abs4 (0, 0, 0, 0)) ≠
          list_min ((a :: b :: rest).map sum_abs4) :=
        first_index_lt_ne _ (by omega)
      have hge : list_min ((a :: b :: rest).map sum_abs4) ≤
          ((a :: b :: rest).map sum_abs4).getD j (sum_abs4 (0, 0, 0, 0)) :=
        list_min_le _ _ (getD_mem (by rw [hlen]; exact hjlt))
      rw [hsum]
      rw [map_getD sum_abs4 (a :: b :: rest) j hjlt (0, 0, 0, 0)
        (sum_abs4 (0, 0, 0, 0))] at hne2 hge
      exact lt_of_le_of_ne hge (Ne.symm hne2)

/-- The survivors of _filter_valid_sample_solutions are exactly the input
tuples passing the round-trip and reference-reproduction tests. -/
theorem filter_valid_mem {UB : Mat3} {delta nu : ℝ} :
    (input : List (ℝ × ℝ × ℝ × ℝ)) →
    ∀ {wavelength : ℝ} {hkl : List ℝ} {rn : String} {rv : ℝ}
      {out : List (ℝ × ℝ × ℝ × ℝ)},
    filter_valid_sample_solutions UB delta nu input wavelength hkl rn rv =
      .ok out →
    ∀ t, t ∈ out ↔ t ∈ input ∧
      hkl_okay_pred UB delta nu wavelength hkl t ∧
      virtual_okay_pred delta nu wavelength rn rv t
  | [], wl, hkl, rn, rv, out, h, t => by
    rw [filter_valid_sample_solutions] at h
    cases h
    simp
  | t' :: rest, wl, hkl, rn, rv, out, h, t => by
    simp only [filter_valid_sample_solutions] at h
    by_cases hko : sequence_ne hkl
        (tripleList (youAnglesToHkl (posOf t' delta nu) wl UB))
    · rw [if_pos hko] at h
      cases hva : anglesToVirtualAngles (posOf t' delta nu) wl with
      | error e =>
        simp only [hva, exceptBindErr] at h
        exact Except.noConfusion h
      | ok va =>
        simp only [hva, exceptBindOk] at h
        cases hvm : virtual_matches rn rv va with
        | error e =>
          simp only [hvm, exceptBindErr] at h
          exact Except.noConfusion h
        | ok P =>
          simp only [hvm, exceptBindOk, exceptPure] at h
          cases hrec : filter_valid_sample_solutions UB delta nu rest wl
              hkl rn rv with
          | error e =>
            simp only [hrec, exceptBindErr] at h
            exact Except.noConfusion h
          | ok rest' =>
            simp only [hrec, exceptBindOk] at h
            have ih := filter_valid_mem rest hrec
            split at h
            next hkeep =>
              cases h
              constructor
              · intro hmem
                rcases List.mem_cons.mp hmem with rfl | hmem
                · exact ⟨List.mem_cons_self _ _, hko,
                    va, P, hva, hvm, hkeep.2⟩
                · rcases (ih t).mp hmem with ⟨h1, h2, h3⟩
                  exact ⟨List.mem_cons_of_mem _ h1, h2, h3⟩
              · intro hmem
                rcases List.mem_cons.mp hmem.1 with rfl | hmem1
                · exact List.mem_cons_self _ _
                · exact List.mem_cons_of_mem _
                    ((ih t).mpr ⟨hmem1, hmem.2⟩)
            next hkeep =>
              cases h
              constructor
              · intro hmem
                rcases (ih t).mp hmem with ⟨h1, h2, h3⟩
                exact ⟨List.mem_cons_of_mem _ h1, h2, h3⟩
              · intro hmem
                rcases List.mem_cons.mp hmem.1 with rfl | hmem1
                · exfalso
                  rcases hmem.2.2 with ⟨va', P', hva', hvm', hP'⟩
                  rw [hva] at hva'
                  cases hva'
                  rw [hvm] at hvm'
                  cases hvm'
                  exact hkeep ⟨hmem.2.1, hP'⟩
                · exact (ih t).mpr ⟨hmem1, hmem.2⟩
    · rw [if_neg hko] at h
      rw [show (pure False : Except PyErr Prop) = .ok False from rfl] at h
      simp only [exceptBindOk] at h
      cases hrec : filter_valid_sample_solutions UB delta nu rest wl
          hkl rn rv with
      | error e =>
        simp only [hrec, exceptBindErr] at h
        exact Except.noConfusion h
      | ok rest' =>
        simp only [hrec, exceptBindOk] at h
        rw [if_neg not_false] at h
        rw [show (pure rest' : Except PyErr _) = .ok rest' from rfl] at h
        cases h
        have ih := filter_valid_mem rest hrec
        constructor
        · intro hmem
          rcases (ih t).mp hmem with ⟨h1, h2, h3⟩
          exact ⟨List.mem_cons_of_mem _ h1, h2, h3⟩
        · intro hmem
          rcases List.mem_cons.mp hmem.1 with rfl | hmem1
          · exact absurd hmem.2.1 hko
          · exact (ih t).mpr ⟨hmem1, hmem.2⟩

/-! ### Claim C4 -/

/-- C4: among the candidate sample tuples exactly those survive the filter
that round-trip to the target hkl within tolerance and whose virtual
angles reproduce the resolved reference constraint; of the survivors the
returned tuple minimises the absolute-angle sum, ties broken by
enumeration order (the first tuple attaining the minimum), and zero
survivors raises NoSolution. -/
theorem C4_sample_filter_and_choice (UB : Mat3)
    (delta nu wavelength : ℝ) (hkl : List ℝ) (rn : String) (rv : ℝ)
    (input out : List (ℝ × ℝ × ℝ × ℝ)) :
    (filter_valid_sample_solutions UB delta nu input wavelength hkl rn rv =
        .ok out →
      ∀ t, t ∈ out ↔ t ∈ input ∧
        hkl_okay_pred UB delta nu wavelength hkl t ∧
        virtual_okay_pred delta nu wavelength rn rv t) ∧
    (∀ t, choose_sample_angles out = .ok t →
      t ∈ out ∧ (∀ u ∈ out, sum_abs4 t ≤ sum_abs4 u) ∧
      ∃ i, i < out.length ∧ out.getD i (0, 0, 0, 0) = t ∧
        ∀ j, j < i → sum_abs4 t < sum_abs4 (out.getD j (0, 0, 0, 0))) ∧
    (out = [] → choose_sample_angles out = .error .noSolutionException) := by
  refine ⟨fun h => filter_valid_mem input h, fun t h => choose_sample_ok h, ?_⟩
  rintro rfl
  rfl

/-! ### Soundness lemmas feeding the round-trip claim -/

/-- Whatever tuple _generate_final_sample_angles returns round-trips to the
requested hkl within SMALL at the detector angles it was given. -/
theorem gen_final_sample_ok {UB : Mat3} {hw : Hardware}
    {m0 e0 c0 p0 : ℝ} {names : List String} {δ ν wl : ℝ} {hkl : List ℝ}
    {rn : String} {rv : ℝ} {mecp : ℝ × ℝ × ℝ × ℝ}
    (h : generate_final_sample_angles UB hw m0 e0 c0 p0 names δ ν wl hkl
      rn rv = .ok mecp) :
    hkl_okay_pred UB δ ν wl hkl mecp := by
  simp only [generate_final_sample_angles] at h
  cases hfil : filter_valid_sample_solutions UB δ ν
      (as_quads (generate_possible_solutions hw [m0, e0, c0, p0]
        (["mu", "eta", "chi", "phi"]) names)) wl hkl rn rv with
  | error e =>
    simp only [hfil, exceptBindErr] at h
    exact Except.noConfusion h
  | ok valid =>
    simp only [hfil, exceptBindOk] at h
    exact (((filter_valid_mem _ hfil) mecp).mp (choose_sample_ok h).1).2.1

/-- Whatever the xi retry loop returns round-trips to the requested hkl
within SMALL at the jointly returned detector angles. -/
theorem try_xi_loop_ok {UB : Mat3} {cons : Constraints} {hw : Hardware}
    {θ wl h k l : ℝ} {rn : String} {rv : ℝ} {m0 e0 c0 p0 : ℝ}
    {names : List String} :
    (xs : List ℝ) → ∀ {m δ ν e c p : ℝ},
    try_xi_loop UB cons hw θ wl h k l rn rv m0 e0 c0 p0 names xs =
      .ok (m, δ, ν, e, c, p) →
    hkl_okay_pred UB δ ν wl [h, k, l] (m, e, c, p)
  | [], m, δ, ν, e, c, p, hres => by
    rw [try_xi_loop] at hres
    exact Except.noConfusion hres
  | xi :: rest, m, δ, ν, e, c, p, hres => by
    rw [try_xi_loop] at hres
    cases hdet : calc_remaining_detector_angles ("qaz")
        (if xi + Real.pi / 2 > 2 * Real.pi then xi + Real.pi / 2 - 2 * Real.pi
         else xi + Real.pi / 2) θ with
    | error e2 =>
      rw [hdet] at hres
      exact Except.noConfusion hres
    | ok dnq =>
      rw [hdet] at hres
      simp only at hres
      cases hgen : generate_final_detector_angles cons hw dnq.1 dnq.2.1
          dnq.2.2 θ ("qaz") with
      | error e2 =>
        rw [hgen] at hres
        cases e2 <;>
          first
            | exact try_xi_loop_ok rest hres
            | exact Except.noConfusion hres
      | ok dn =>
        rw [hgen] at hres
        simp only at hres
        cases hsamp : generate_final_sample_angles UB hw m0 e0 c0 p0 names
            dn.1 dn.2 wl [h, k, l] rn rv with
        | error e2 =>
          rw [hsamp] at hres
          cases e2 <;>
            first
              | exact try_xi_loop_ok rest hres
              | exact Except.noConfusion hres
        | ok mecp =>
          rw [hsamp] at hres
          simp only at hres
          have hinj := Except.ok.inj hres
          have h1 : mecp.1 = m := congrArg (fun q => q.1) hinj
          have h2 : dn.1 = δ := congrArg (fun q => q.2.1) hinj
          have h3 : dn.2 = ν := congrArg (fun q => q.2.2.1) hinj
          have h4 : mecp.2.1 = e := congrArg (fun q => q.2.2.2.1) hinj
          have h5 : mecp.2.2.1 = c := congrArg (fun q => q.2.2.2.2.1) hinj
          have h6 : mecp.2.2.2 = p := congrArg (fun q => q.2.2.2.2.2) hinj
          have := gen_final_sample_ok hsamp
          rw [h2, h3] at this
          have hm : mecp = (m, e, c, p) := by
            rw [← h1, ← h4, ← h5, ← h6]
          rw [hm] at this
          exact this

/-- Whatever the sample column returns round-trips to the requested hkl
within SMALL at the returned detector angles. -/
theorem sample_stage_ok {UB : Mat3} {cons : Constraints} {hw : Hardware}
    {θ α ψ : ℝ} {detInfo : Option DetInfo} {h k l wl : ℝ} {rn : String}
    {rv : ℝ} {h_phi : Vec3} {m δ ν e c p : ℝ}
    (hres : sample_stage UB cons hw θ α ψ detInfo h k l wl rn rv h_phi =
      .ok (m, δ, ν, e, c, p)) :
    hkl_okay_pred UB δ ν wl [h, k, l] (m, e, c, p) := by
  rw [sample_stage] at hres
  match hsc : cons.sample with
  | [] =>
    rw [hsc] at hres
    exact Except.noConfusion hres
  | [sc] =>
    rw [hsc] at hres
    match detInfo with
    | none => exact Except.noConfusion hres
    | some di =>
      simp only at hres
      cases hcalc : calc_remaining_sample_angles sc.1 sc.2
          (⟨Real.cos θ * Real.sin di.qaz, -Real.sin θ,
            Real.cos θ * Real.cos di.qaz⟩ : Vec3)
          (⟨Real.cos α * Real.sin di.naz, -Real.sin α,
            Real.cos α * Real.cos di.naz⟩ : Vec3) h_phi n_phi with
      | error e2 =>
        rw [hcalc] at hres
        simp only [exceptBindErr] at hres
        exact Except.noConfusion hres
      | ok pcem =>
        rw [hcalc] at hres
        simp only [exceptBindOk] at hres
        cases hgen : generate_final_sample_angles UB hw pcem.2.2.2
            pcem.2.2.1 pcem.2.1 pcem.1 [sc.1] di.delta di.nu wl [h, k, l]
            rn rv with
        | error e2 =>
          rw [hgen] at hres
          simp only [exceptBindErr] at hres
          exact Except.noConfusion hres
        | ok mecp =>
          rw [hgen] at hres
          simp only [exceptBindOk, exceptPure] at hres
          have hinj := Except.ok.inj hres
          have h1 : mecp.1 = m := congrArg (fun q => q.1) hinj
          have h2 : di.delta = δ := congrArg (fun q => q.2.1) hinj
          have h3 : di.nu = ν := congrArg (fun q => q.2.2.1) hinj
          have h4 : mecp.2.1 = e := congrArg (fun q => q.2.2.2.1) hinj
          have h5 : mecp.2.2.1 = c := congrArg (fun q => q.2.2.2.2.1) hinj
          have h6 : mecp.2.2.2 = p := congrArg (fun q => q.2.2.2.2.2) hinj
          have := gen_final_sample_ok hgen
          rw [h2, h3] at this
          have hm : mecp = (m, e, c, p) := by
            rw [← h1, ← h4, ← h5, ← h6]
          rw [hm] at this
          exact this
  | [a, b] =>
    rw [hsc] at hres
    simp only at hres
    cases hang : calc_angles_given_two_sample_and_reference [a, b] ψ θ
        h_phi n_phi with
    | error e2 =>
      rw [hang] at hres
      simp only [exceptBindErr] at hres
      exact Except.noConfusion hres
    | ok angles =>
      rw [hang] at hres
      simp only [exceptBindOk] at hres
      exact try_xi_loop_ok _ hres
  | [a3, b3, c3] =>
    rw [hsc] at hres
    exact Except.noConfusion hres
  | a3 :: b3 :: c3 :: d3 :: rest3 =>
    rw [hsc] at hres
    exact Except.noConfusion hres

/-- Projection form of sample_stage_ok for an undestructured tuple. -/
theorem sample_stage_ok2 {UB : Mat3} {cons : Constraints} {hw : Hardware}
    {θ α ψ : ℝ} {detInfo : Option DetInfo} {h k l wl : ℝ} {rn : String}
    {rv : ℝ} {h_phi : Vec3} {md : ℝ × ℝ × ℝ × ℝ × ℝ × ℝ}
    (hres : sample_stage UB cons hw θ α ψ detInfo h k l wl rn rv h_phi =
      .ok md) :
    hkl_okay_pred UB md.2.1 md.2.2.1 wl [h, k, l]
      (md.1, md.2.2.2.1, md.2.2.2.2.1, md.2.2.2.2.2) := by
  obtain ⟨m, δ, ν, e, c, p⟩ := md
  exact sample_stage_ok hres

/-- calcPHI is 2 pi periodic, so the final phi wrap preserves hkl. -/
theorem z_rotation_add_two_pi (t : ℝ) :
    z_rotation (t + 2 * Real.pi) = z_rotation t := by
  rw [z_rotation, z_rotation, Real.cos_add_two_pi, Real.sin_add_two_pi]

theorem youAnglesToHkl_phi_two_pi (p : YouPosition) (wl : ℝ) (UB : Mat3) :
    youAnglesToHkl { p with phi := p.phi + 2 * Real.pi } wl UB =
      youAnglesToHkl p wl UB := by
  rw [youAnglesToHkl, youAnglesToHkl]
  simp only [calcPHI, z_rotation_add_two_pi]

/-- The phi wrap at source lines 378-379, as a function. -/
def phi_wrap (p : YouPosition) : YouPosition :=
  if p.phi ≤ -Real.pi + SMALL then { p with phi := p.phi + 2 * Real.pi }
  else p

theorem phi_wrap_hkl (p : YouPosition) (wl : ℝ) (UB : Mat3) :
    youAnglesToHkl (phi_wrap p) wl UB = youAnglesToHkl p wl UB := by
  rw [phi_wrap]
  split
  · exact youAnglesToHkl_phi_two_pi p wl UB
  · rfl

theorem phi_wrap_fields (p : YouPosition) :
    (phi_wrap p).mu = p.mu ∧ (phi_wrap p).delta = p.delta ∧
    (phi_wrap p).nu = p.nu ∧ (phi_wrap p).eta = p.eta ∧
    (phi_wrap p).chi = p.chi := by
  rw [phi_wrap]
  split <;> exact ⟨rfl, rfl, rfl, rfl, rfl⟩

/-- The three possible outcomes of the degeneracy cleanup. -/
theorem tidy_cases (pos : YouPosition) (cons : Constraints) :
    tidy_degenerate_solutions pos cons = pos ∨
    (degenerate_case1 pos cons ∧
      (tidy_degenerate_solutions pos cons).mu = pos.mu ∧
      (tidy_degenerate_solutions pos cons).delta = pos.delta ∧
      (tidy_degenerate_solutions pos cons).nu = pos.nu ∧
      (tidy_degenerate_solutions pos cons).chi = pos.chi) ∨
    (((is_small pos.delta ∧ detector_like cons) ∧
      (is_small pos.eta ∧ "eta" ∈ keys cons.sample) ∧
      is_small (pos.chi - Real.pi / 2)) ∧
      (tidy_degenerate_solutions pos cons).delta = pos.delta ∧
      (tidy_degenerate_solutions pos cons).eta = pos.eta ∧
      (tidy_degenerate_solutions pos cons).chi = pos.chi) := by
  rw [tidy_degenerate_solutions]
  by_cases hA : (is_small pos.nu ∧ detector_like cons) ∧
      is_small pos.mu ∧ "mu" ∈ keys cons.sample
  · rw [if_pos hA]
    by_cases hchi : is_small pos.chi
    · rw [if_pos hchi]
      exact Or.inr (Or.inl ⟨⟨hA.1, hA.2, hchi⟩, rfl, rfl, rfl, rfl⟩)
    · rw [if_neg hchi]
      exact Or.inl rfl
  · rw [if_neg hA]
    by_cases hB : (is_small pos.delta ∧ detector_like cons) ∧
        is_small pos.eta ∧ "eta" ∈ keys cons.sample
    · rw [if_pos hB]
      by_cases hchi : is_small (pos.chi - Real.pi / 2)
      · rw [if_pos hchi]
        exact Or.inr (Or.inr ⟨⟨hB.1, hB.2, hchi⟩, rfl, rfl, rfl⟩)
      · rw [if_neg hchi]
        exact Or.inl rfl
    · rw [if_neg hB]
      exact Or.inl rfl

/-- Unpacking sequence_ne on a triple of miller indices. -/
theorem sequence_ne_triple {a b c : ℝ} {t : ℝ × ℝ × ℝ}
    (h : sequence_ne [a, b, c] (tripleList t)) :
    ne a t.1 ∧ ne b t.2.1 ∧ ne c t.2.2 := by
  refine ⟨h (a, t.1) ?_, h (b, t.2.1) ?_, h (c, t.2.2) ?_⟩ <;>
    simp [tripleList]

/-! ### Claim C1 -/

/-- C1: whenever _hklToAngles returns a position that is outside the two
named degenerate cleanup cases (a valid, non-degenerate configuration),
applying youAnglesToHkl to that position with the same wavelength and UB
matrix reproduces the requested (h, k, l) to within 1e-6 in each
component (the sample filter in fact guarantees 1e-8). -/
theorem C1_hkl_roundtrip (UB : Mat3) (cons : Constraints) (hw : Hardware)
    (h k l wl : ℝ) (pos : YouPosition) (va : VirtualAngles)
    (hres : hklToAngles UB cons hw h k l wl = .ok (pos, va))
    (hnd1 : ¬ degenerate_case1 pos cons)
    (hnd2 : ¬ degenerate_case2 pos cons) :
    |h - (youAnglesToHkl pos wl UB).1| ≤ 1e-6 ∧
    |k - (youAnglesToHkl pos wl UB).2.1| ≤ 1e-6 ∧
    |l - (youAnglesToHkl pos wl UB).2.2| ≤ 1e-6 := by
  simp only [hklToAngles] at hres
  cases hθ : calc_theta (UB.mulVec ⟨h, k, l⟩) wl with
  | error e => simp only [hθ, exceptBindErr] at hres; exact Except.noConfusion hres
  | ok θ =>
  simp only [hθ, exceptBindOk] at hres
  cases href : ref_stage cons θ
      (angle_between_vectors (UB.mulVec ⟨h, k, l⟩) n_phi) with
  | error e => simp only [href, exceptBindErr] at hres; exact Except.noConfusion hres
  | ok ref =>
  simp only [href, exceptBindOk] at hres
  cases hdet : det_stage cons hw θ ref.2.2.2
      (angle_between_vectors (UB.mulVec ⟨h, k, l⟩) n_phi) with
  | error e => simp only [hdet, exceptBindErr] at hres; exact Except.noConfusion hres
  | ok detInfo =>
  simp only [hdet, exceptBindOk] at hres
  cases hsamp : sample_stage UB cons hw θ ref.2.2.2 ref.2.2.1 detInfo
      h k l wl ref.1 ref.2.1 (UB.mulVec ⟨h, k, l⟩) with
  | error e => simp only [hsamp, exceptBindErr] at hres; exact Except.noConfusion hres
  | ok md =>
  simp only [hsamp, exceptBindOk] at hres
  cases hva2 : anglesToVirtualAngles
      (if (tidy_degenerate_solutions
            (⟨md.1, md.2.1, md.2.2.1, md.2.2.2.1, md.2.2.2.2.1,
              md.2.2.2.2.2⟩ : YouPosition) cons).phi ≤ -Real.pi + SMALL
       then { tidy_degenerate_solutions
            (⟨md.1, md.2.1, md.2.2.1, md.2.2.2.1, md.2.2.2.2.1,
              md.2.2.2.2.2⟩ : YouPosition) cons with
          phi := (tidy_degenerate_solutions
            (⟨md.1, md.2.1, md.2.2.1, md.2.2.2.1, md.2.2.2.2.1,
              md.2.2.2.2.2⟩ : YouPosition) cons).phi + 2 * Real.pi }
       else tidy_degenerate_solutions
            (⟨md.1, md.2.1, md.2.2.1, md.2.2.2.1, md.2.2.2.2.1,
              md.2.2.2.2.2⟩ : YouPosition) cons) wl with
  | error e => simp only [hva2, exceptBindErr] at hres; exact Except.noConfusion hres
  | ok pa =>
  simp only [hva2, exceptBindOk, exceptPure] at hres
  have hinj := Except.ok.inj hres
  have hpos : pos = phi_wrap (tidy_degenerate_solutions
      (⟨md.1, md.2.1, md.2.2.1, md.2.2.2.1, md.2.2.2.2.1, md.2.2.2.2.2⟩ :
        YouPosition) cons) := (congrArg Prod.fst hinj).symm
  set pos0 : YouPosition := ⟨md.1, md.2.1, md.2.2.1, md.2.2.2.1,
      md.2.2.2.2.1, md.2.2.2.2.2⟩ with hpos0
  have hok : sequence_ne [h, k, l]
      (tripleList (youAnglesToHkl pos0 wl UB)) := sample_stage_ok2 hsamp
  have hhkl_eq : youAnglesToHkl pos wl UB = youAnglesToHkl pos0 wl UB := by
    rcases tidy_cases pos0 cons with hcase | hcase | hcase
    · rw [hpos, hcase, phi_wrap_hkl]
    · exfalso
      apply hnd1
      rcases hcase with ⟨⟨⟨hnu, hdl⟩, ⟨hmu, hmem⟩, hchi⟩, hfm, hfd, hfn, hfc⟩
      rcases phi_wrap_fields (tidy_degenerate_solutions pos0 cons) with
        ⟨hwm, hwd, hwn, hwe, hwc⟩
      refine ⟨⟨?_, hdl⟩, ⟨?_, hmem⟩, ?_⟩
      · rw [hpos, hwn, hfn]; exact hnu
      · rw [hpos, hwm, hfm]; exact hmu
      · rw [hpos, hwc, hfc]; exact hchi
    · exfalso
      apply hnd2
      rcases hcase with ⟨⟨⟨hd, hdl⟩, ⟨he, hmem⟩, hchi⟩, hfd, hfe, hfc⟩
      rcases phi_wrap_fields (tidy_degenerate_solutions pos0 cons) with
        ⟨hwm, hwd, hwn, hwe, hwc⟩
      refine ⟨⟨?_, hdl⟩, ⟨?_, hmem⟩, ?_⟩
      · rw [hpos, hwd, hfd]; exact hd
      · rw [hpos, hwe, hfe]; exact he
      · rw [hpos, hwc, hfc]; exact hchi
  have htrip := sequence_ne_triple hok
  rw [← hhkl_eq] at htrip
  have hsmall : SMALL ≤ 1e-6 := by rw [SMALL]; norm_num
  rcases htrip with ⟨h1, h2, h3⟩
  rw [ne, is_small] at h1 h2 h3
  exact ⟨le_trans h1.le hsmall, le_trans h2.le hsmall,
    le_trans h3.le hsmall⟩

/-! ### Concrete evaluation of the fixture solve -/

theorem two_pi_ne : (2 * Real.pi : ℝ) ≠ 0 := by
  have := Real.pi_pos
  positivity

theorem smul_mul (a : ℝ) (M N : Mat3) :
    (Mat3.smul a M).mul N = Mat3.smul a (M.mul N) := by
  rw [Mat3.smul, Mat3.mul, Mat3.mul, Mat3.smul]
  ext <;> simp <;> ring

theorem smul_mulVec (a : ℝ) (M : Mat3) (v : Vec3) :
    (Mat3.smul a M).mulVec v = Vec3.smul a (M.mulVec v) := by
  rw [Mat3.smul, Mat3.mulVec, Mat3.mulVec, Vec3.smul]
  ext <;> simp <;> ring

theorem smul_id_inv {a : ℝ} (ha : a ≠ 0) :
    (Mat3.smul a I).inv = Mat3.smul (1 / a) I := by
  simp only [I, Mat3.smul, Mat3.inv, Mat3.det, mul_one, mul_zero, sub_zero,
    add_zero, zero_mul, zero_sub, neg_zero, zero_div]
  ext <;> simp only <;> field_simp <;> ring

theorem sqrt3_sq : Real.sqrt 3 * Real.sqrt 3 = 3 :=
  Real.mul_self_sqrt (by norm_num)

theorem sqrt3_pos : 0 < Real.sqrt 3 := Real.sqrt_pos.mpr (by norm_num)

/-- youAnglesToHkl at the fixture family mu=0, delta=pi/3, nu=0, eta=0,
chi=0, arbitrary phi, wavelength 1, UB = 2 pi I. -/
theorem hkl_eval_phi (φ : ℝ) :
    youAnglesToHkl ⟨0, Real.pi / 3, 0, 0, 0, φ⟩ 1 UBWitness =
      ((Real.sqrt 3 * Real.cos φ + Real.sin φ) / 2,
       (Real.sqrt 3 * Real.sin φ - Real.cos φ) / 2, 0) := by
  rw [youAnglesToHkl]
  simp only [calcMU, calcETA, calcCHI, calcPHI, calcDELTA, calcNU,
    x_rotation_zero, z_rotation_zero, y_rotation_zero, id_mul, mul_id,
    id_inv, z_rotation_inv, UBWitness, smul_id_inv two_pi_ne, smul_mul,
    smul_mulVec]
  rw [z_rotation, z_rotation, Real.cos_pi_div_three, Real.sin_pi_div_three,
    Real.cos_neg, Real.sin_neg]
  rw [I, Mat3.sub, Mat3.mulVec, Mat3.mulVec, Vec3.smul]
  simp only
  have hπ := Real.pi_pos
  refine Prod.ext ?_ (Prod.ext ?_ ?_) <;> simp only <;> field_simp <;> ring

theorem one_le_sqrt3 : (1 : ℝ) ≤ Real.sqrt 3 := by
  calc (1 : ℝ) = Real.sqrt 1 := Real.sqrt_one.symm
    _ ≤ Real.sqrt 3 := Real.sqrt_le_sqrt (by norm_num)

theorem cos_pi_div_six_ne : Real.cos (Real.pi / 6) ≠ 0 := by
  rw [Real.cos_pi_div_six]
  have := sqrt3_pos
  positivity

theorem not_small_cos_pi_div_six : ¬ is_small (Real.cos (Real.pi / 6)) := by
  rw [Real.cos_pi_div_six, is_small, not_lt, SMALL]
  have h := one_le_sqrt3
  rw [abs_of_pos (by positivity)]
  linarith

theorem arccos_half : Real.arccos (1 / 2) = Real.pi / 3 := by
  rw [show (1 / 2 : ℝ) = Real.cos (Real.pi / 3) from Real.cos_pi_div_three.symm]
  have := Real.pi_pos
  exact Real.arccos_cos (by positivity) (by linarith)

theorem arcsin_half : Real.arcsin (1 / 2) = Real.pi / 6 := by
  rw [show (1 / 2 : ℝ) = Real.sin (Real.pi / 6) from Real.sin_pi_div_six.symm]
  have := Real.pi_pos
  exact Real.arcsin_sin (by linarith) (by linarith)

theorem arctan_inv_sqrt3 : Real.arctan (1 / 2 / (Real.sqrt 3 / 2)) =
    Real.pi / 6 := by
  rw [show (1 / 2 / (Real.sqrt 3 / 2) : ℝ) = Real.tan (Real.pi / 6) by
    rw [Real.tan_eq_sin_div_cos, Real.sin_pi_div_six, Real.cos_pi_div_six]]
  have := Real.pi_pos
  exact Real.arctan_tan (by linarith) (by linarith)

theorem not_small_pi_div_three : ¬ is_small (Real.pi / 3) := by
  rw [is_small, not_lt, SMALL]
  have := Real.pi_gt_three
  rw [abs_of_pos (by linarith)]
  linarith

theorem not_small_pi_shifted : ¬ (is_small (Real.pi / 3 - Real.pi / 2) ∨
    is_small (Real.pi / 3 + Real.pi / 2)) := by
  have := Real.pi_gt_three
  rw [not_or, is_small, is_small, not_lt, not_lt, SMALL]
  constructor
  · rw [show Real.pi / 3 - Real.pi / 2 = -(Real.pi / 6) by ring, abs_neg,
      abs_of_pos (by linarith)]
    linarith
  · rw [abs_of_pos (by linarith)]
    linarith

theorem ne_refl_real (x : ℝ) : ne x x := by
  rw [ne, sub_self, is_small, abs_zero]
  exact SMALL_pos

/-- theta and qaz recomputed from the fixture detector pair. -/
theorem tq_eval : theta_and_qaz_from_detector_angles (Real.pi / 3) 0 =
    .ok (Real.pi / 6, Real.pi / 2) := by
  rw [theta_and_qaz_from_detector_angles]
  have h1 : Real.cos (Real.pi / 3) * Real.cos 0 = 1 / 2 := by
    rw [Real.cos_pi_div_three, Real.cos_zero]; norm_num
  have htan : 0 < Real.tan (Real.pi / 3) := by
    rw [Real.tan_eq_sin_div_cos, Real.sin_pi_div_three,
      Real.cos_pi_div_three]
    have := sqrt3_pos
    positivity
  rw [h1, bound_eq_self (by norm_num) (by norm_num),
    acosE_ok (abs_le.mpr (by norm_num)), arccos_half]
  simp only [exceptBindOk, Real.sin_zero, atan2_of_pos_y_zero_x htan,
    exceptPure]
  rw [show Real.pi / 3 / 2 = Real.pi / 6 by ring]

/-- The virtual angles at the fixture solution position. -/
theorem va_eval_pos1 :
    anglesToVirtualAngles ⟨0, Real.pi / 3, 0, 0, 0, Real.pi / 6⟩ 1 =
      .ok ⟨Real.pi / 6, Real.pi / 2, 0, 0, Real.pi / 2,
        some (Real.pi / 2), 0⟩ := by
  have hZ : (((calcMU 0).mul (calcETA 0)).mul (calcCHI 0)).mul
      (calcPHI (Real.pi / 6)) = z_rotation (Real.pi / 6) := by
    rw [calcMU, calcETA, calcCHI, calcPHI, x_rotation_zero, z_rotation_zero,
      y_rotation_zero, id_mul, id_mul, id_mul]
  have hn : (z_rotation (Real.pi / 6)).mulVec n_phi = ⟨0, 0, 1⟩ := by
    rw [z_rotation, n_phi, Mat3.mulVec]
    ext <;> simp
  have hnaz : atan2 (0 : ℝ) 1 = 0 := atan2_zero_of_pos_x (by norm_num)
  have hsin1 : Real.sin (Real.pi / 2) ≠ 0 := by
    rw [Real.sin_pi_div_two]; norm_num
  rw [anglesToVirtualAngles]
  simp only [tq_eval, exceptBindOk, hZ, hn, neg_zero, bound_zero,
    asinE_zero, hnaz, Real.cos_zero, Real.sin_zero, one_mul, mul_one,
    zero_mul, mul_zero, add_zero, zero_add, zero_sub, Real.cos_neg,
    Real.cos_pi_div_two, acosE_zero, sub_zero, zero_div, hsin1,
    cos_pi_div_six_ne, Real.sin_pi_div_two, exceptPure]
  norm_num [cos_pi_div_six_ne]

/-- calc_theta at the fixture: |Q| = 2 pi, wavelength 1, theta = pi/6. -/
theorem calc_theta_eval : calc_theta ⟨2 * Real.pi, 0, 0⟩ 1 = .ok (Real.pi / 6) := by
  have hπ := Real.pi_pos
  have hn : Vec3.norm3 ⟨2 * Real.pi, 0, 0⟩ = 2 * Real.pi := by
    rw [Vec3.norm3]
    simp only
    rw [show (2 * Real.pi) ^ 2 + 0 ^ 2 + 0 ^ 2 = (2 * Real.pi) ^ 2 by ring]
    exact Real.sqrt_sq (by positivity)
  have harg : 2 * Real.pi / (2 * (2 * Real.pi / 1)) = 1 / 2 := by
    field_simp
    ring
  rw [calc_theta, hn]
  rw [if_neg two_pi_ne]
  simp only [exceptPure, exceptBindOk, harg,
    asinE_ok (show |(1 : ℝ) / 2| ≤ 1 from abs_le.mpr (by norm_num)),
    arcsin_half]

/-- tau at the fixture: Q along x, reference along z. -/
theorem tau_eval : angle_between_vectors ⟨2 * Real.pi, 0, 0⟩ n_phi =
    Real.pi / 2 := by
  rw [angle_between_vectors, n_phi, Vec3.dot3]
  simp only [mul_zero, zero_mul, mul_one, add_zero, zero_add]
  rw [zero_div, bound_zero, Real.arccos_zero]

/-- The reference column at the fixture. -/
theorem ref_angles_eval : calc_remaining_reference_angles ("a_eq_b") 0
    (Real.pi / 6) (Real.pi / 2) = .ok (Real.pi / 2, 0, 0) := by
  have hsin1 : Real.sin (Real.pi / 2) ≠ 0 := by
    rw [Real.sin_pi_div_two]; norm_num
  rw [calc_remaining_reference_angles]
  simp only [hsin1, cos_pi_div_six_ne, Real.cos_pi_div_two, zero_mul,
    bound_zero, asinE_zero, Real.sin_zero, sub_zero, zero_sub, neg_zero,
    zero_div, acosE_zero, exceptBindOk, exceptPure, exceptThrow,
    String.reduceEq, reduceIte, if_false]

theorem ref_stage_eval : ref_stage consWitness (Real.pi / 6) (Real.pi / 2) =
    .ok (("a_eq_b"), 0, Real.pi / 2, 0) := by
  rw [ref_stage, consWitness]
  simp only [ref_angles_eval, exceptBindOk, exceptPure]

/-- The detector column closed form at the fixture: qaz = 90 degrees. -/
theorem det_angles_eval : calc_remaining_detector_angles ("qaz")
    (Real.pi / 2) (Real.pi / 6) = .ok (Real.pi / 3, 0, Real.pi / 2) := by
  have h2θ : 2 * (Real.pi / 6) = Real.pi / 3 := by ring
  have hcosq : is_small (Real.cos (Real.pi / 2)) := by
    rw [Real.cos_pi_div_two, is_small, abs_zero]
    exact SMALL_pos
  have hν : atan2 (Real.sin (Real.pi / 3) * Real.cos (Real.pi / 2))
      (Real.cos (Real.pi / 3)) = 0 := by
    rw [Real.cos_pi_div_two, mul_zero, Real.cos_pi_div_three]
    exact atan2_zero_of_pos_x (by norm_num)
  have hsign : sign (Real.pi / 2) = 1 := by
    rw [sign, if_pos (by positivity)]
  rw [calc_remaining_detector_angles]
  simp only [String.reduceEq, reduceIte, if_false, h2θ, hν, hcosq,
    not_true, exceptBindOk, exceptPure]
  rw [Real.cos_zero, div_one, Real.cos_pi_div_three,
    bound_eq_self (by norm_num) (by norm_num),
    acosE_ok (abs_le.mpr (by norm_num)), arccos_half]
  simp only [exceptBindOk, exceptPure, hsign, one_mul]

/-- The naz-qaz separation angle at the fixture is 90 degrees. -/
theorem nq_eval : calc_angle_between_naz_and_qaz (Real.pi / 6) 0
    (Real.pi / 2) = .ok (Real.pi / 2) := by
  rw [calc_angle_between_naz_and_qaz]
  simp only [Real.cos_pi_div_two, Real.sin_zero, zero_mul, sub_zero,
    Real.cos_zero, one_mul, exceptBindOk, exceptPure]
  rw [if_neg not_small_cos_pi_div_six]
  simp only [zero_div, bound_zero, acosE_zero, exceptBindOk, exceptPure]

/-! ### Detector pipeline at the fixture -/

theorem deg60 : Real.pi / 3 * TODEG = 60 := by
  rw [TODEG]
  field_simp
  ring

theorem degneg60 : -(Real.pi / 3) * TODEG = -60 := by
  rw [TODEG]
  field_simp
  ring

theorem deg240 : (Real.pi + Real.pi / 3) * TODEG = 240 := by
  rw [TODEG]
  field_simp
  ring

theorem deg120 : (Real.pi - Real.pi / 3) * TODEG = 120 := by
  rw [TODEG]
  field_simp
  ring

theorem deg180 : Real.pi * TODEG = 180 := by
  rw [TODEG]
  field_simp

theorem deg30 : Real.pi / 6 * TODEG = 30 := by
  rw [TODEG]
  field_simp
  ring

theorem degneg30 : -(Real.pi / 6) * TODEG = -30 := by
  rw [TODEG]
  field_simp
  ring

theorem deg210 : (Real.pi + Real.pi / 6) * TODEG = 210 := by
  rw [TODEG]
  field_simp
  ring

theorem deg150 : (Real.pi - Real.pi / 6) * TODEG = 150 := by
  rw [TODEG]
  field_simp
  ring

theorem small_zero : is_small 0 := by
  rw [is_small, abs_zero]
  exact SMALL_pos

theorem cut_id {v : ℝ} (h1 : -Real.pi - SMALL ≤ v) (h2 : v < Real.pi + SMALL) :
    cut_at_minus_pi v = v := by
  rw [cut_at_minus_pi, if_neg (not_lt.mpr h1), if_neg (not_le.mpr h2)]

theorem cut_zero : cut_at_minus_pi 0 = 0 :=
  cut_id (by rw [SMALL]; have := Real.pi_gt_three; linarith)
    (by rw [SMALL]; have := Real.pi_gt_three; linarith)

theorem cut_pi_div_three : cut_at_minus_pi (Real.pi / 3) = Real.pi / 3 :=
  cut_id (by rw [SMALL]; have := Real.pi_gt_three; linarith)
    (by rw [SMALL]; have := Real.pi_gt_three; linarith)

theorem cut_pi_div_six : cut_at_minus_pi (Real.pi / 6) = Real.pi / 6 :=
  cut_id (by rw [SMALL]; have := Real.pi_gt_three; linarith)
    (by rw [SMALL]; have := Real.pi_gt_three; linarith)

theorem cut_neg_pi_div_six :
    cut_at_minus_pi (-(Real.pi / 6)) = -(Real.pi / 6) :=
  cut_id (by rw [SMALL]; have := Real.pi_gt_three; linarith)
    (by rw [SMALL]; have := Real.pi_gt_three; linarith)

theorem hw_cut (name : String) (v : ℝ) : hwWitness.cutAngle name v = v := rfl

theorem hw_delta (v : ℝ) : hwWitness.isAxisValueWithinLimits ("delta") v =
    decide (0 ≤ v ∧ v ≤ 91) := rfl

theorem hw_nu (v : ℝ) : hwWitness.isAxisValueWithinLimits ("nu") v =
    decide (|v| ≤ 10) := rfl

theorem hw_mu (v : ℝ) : hwWitness.isAxisValueWithinLimits ("mu") v =
    decide (|v| ≤ 91) := rfl

theorem hw_eta (v : ℝ) : hwWitness.isAxisValueWithinLimits ("eta") v =
    decide (|v| ≤ 91) := rfl

theorem hw_chi (v : ℝ) : hwWitness.isAxisValueWithinLimits ("chi") v =
    decide (|v| ≤ 91) := rfl

theorem hw_phi (v : ℝ) : hwWitness.isAxisValueWithinLimits ("phi") v =
    decide (|v| ≤ 91) := rfl

theorem gtv_pi_div_three : generate_transformed_values (Real.pi / 3) false =
    [Real.pi / 3, -(Real.pi / 3), Real.pi + Real.pi / 3,
     Real.pi - Real.pi / 3] := by
  rw [generate_transformed_values]
  simp only [Bool.false_eq_true, if_false]
  rw [if_neg not_small_pi_div_three, if_neg not_small_pi_shifted]

theorem gtv_zero : generate_transformed_values 0 false = [0, Real.pi] := by
  rw [generate_transformed_values]
  simp only [Bool.false_eq_true, if_false]
  rw [if_pos small_zero]

theorem not_small_pi_div_six : ¬ is_small (Real.pi / 6) := by
  rw [is_small, not_lt, SMALL]
  have := Real.pi_gt_three
  rw [abs_of_pos (by linarith)]
  linarith

theorem not_small_pi_div_six_shifted :
    ¬ (is_small (Real.pi / 6 - Real.pi / 2) ∨
       is_small (Real.pi / 6 + Real.pi / 2)) := by
  have := Real.pi_gt_three
  rw [not_or, is_small, is_small, not_lt, not_lt, SMALL]
  constructor
  · rw [show Real.pi / 6 - Real.pi / 2 = -(Real.pi / 3) by ring, abs_neg,
      abs_of_pos (by linarith)]
    linarith
  · rw [abs_of_pos (by linarith)]
    linarith

theorem gtv_pi_div_six : generate_transformed_values (Real.pi / 6) false =
    [Real.pi / 6, -(Real.pi / 6), Real.pi + Real.pi / 6,
     Real.pi - Real.pi / 6] := by
  rw [generate_transformed_values]
  simp only [Bool.false_eq_true, if_false]
  rw [if_neg not_small_pi_div_six, if_neg not_small_pi_div_six_shifted]

theorem axis_delta_eval : axis_candidates hwWitness (Real.pi / 3) ("delta")
    (["qaz"]) = [Real.pi / 3] := by
  rw [axis_candidates]
  have hm : decide (("delta" : String) ∈ (["qaz"] : List String)) = false := rfl
  rw [hm, gtv_pi_div_three]
  have f1 : hwWitness.isAxisValueWithinLimits ("delta")
      (hwWitness.cutAngle ("delta") (Real.pi / 3 * TODEG)) = true := by
    rw [hw_cut, hw_delta, deg60]
    exact decide_eq_true (by norm_num)
  have f2 : hwWitness.isAxisValueWithinLimits ("delta")
      (hwWitness.cutAngle ("delta") (-(Real.pi / 3 * TODEG))) = false := by
    rw [hw_cut, hw_delta, deg60]
    exact decide_eq_false (by norm_num)
  have f3 : hwWitness.isAxisValueWithinLimits ("delta")
      (hwWitness.cutAngle ("delta") ((Real.pi + Real.pi / 3) * TODEG)) =
      false := by
    rw [hw_cut, hw_delta, deg240]
    exact decide_eq_false (by norm_num)
  have f4 : hwWitness.isAxisValueWithinLimits ("delta")
      (hwWitness.cutAngle ("delta") ((Real.pi - Real.pi / 3) * TODEG)) =
      false := by
    rw [hw_cut, hw_delta, deg120]
    exact decide_eq_false (by norm_num)
  simp [List.filter_cons, f1, f2, f3, f4, cut_pi_div_three]

theorem axis_nu_eval : axis_candidates hwWitness 0 ("nu") (["qaz"]) =
    [0] := by
  rw [axis_candidates]
  have hm : decide (("nu" : String) ∈ (["qaz"] : List String)) = false := rfl
  rw [hm, gtv_zero]
  have f1 : hwWitness.isAxisValueWithinLimits ("nu")
      (hwWitness.cutAngle ("nu") (0 : ℝ)) = true := by
    rw [hw_cut, hw_nu]
    exact decide_eq_true (by norm_num)
  have f2 : hwWitness.isAxisValueWithinLimits ("nu")
      (hwWitness.cutAngle ("nu") (Real.pi * TODEG)) = false := by
    rw [hw_cut, hw_nu, deg180]
    exact decide_eq_false (by norm_num)
  simp [List.filter_cons, f1, f2, cut_zero]

theorem gen_det_eval : generate_possible_solutions hwWitness
    [Real.pi / 3, 0] (["delta", "nu"]) (["qaz"]) = [[Real.pi / 3, 0]] := by
  rw [generate_possible_solutions]
  simp only [List.zip_cons_cons, List.zip_nil_left, List.map_cons,
    List.map_nil, axis_delta_eval, axis_nu_eval]
  simp [expand]

theorem filter_det_eval : filter_detector_solutions_by_theta_and_qaz
    [(Real.pi / 3, 0)] (Real.pi / 6) (Real.pi / 2) =
    .ok [(Real.pi / 3, 0)] := by
  rw [filter_detector_solutions_by_theta_and_qaz,
    filter_detector_solutions_by_theta_and_qaz]
  simp only [tq_eval, exceptBindOk, exceptPure]
  rw [if_pos ⟨ne_refl_real _, ne_refl_real _⟩]

theorem prune_single : prune_close_to_90 [(Real.pi / 3, 0)] (Real.pi / 6) =
    .ok [(Real.pi / 3, 0)] := by
  rw [prune_close_to_90, if_neg (by simp)]
  rfl

theorem choose_det_single : choose_detector_angles [(Real.pi / 3, 0)] =
    .ok (Real.pi / 3, 0) := by
  rw [choose_detector_angles, if_neg (by simp)]
  rfl

theorem gen_final_det_eval : generate_final_detector_angles consWitness
    hwWitness (Real.pi / 3) 0 (Real.pi / 2) (Real.pi / 6) ("qaz") =
    .ok (Real.pi / 3, 0) := by
  rw [generate_final_detector_angles]
  rw [if_neg (fun hc => not_small_pi_shifted (Or.inl hc.1))]
  have hpairs : as_pairs [[Real.pi / 3, 0]] = [(Real.pi / 3, 0)] := by
    simp [as_pairs]
  simp only [gen_det_eval, hpairs, filter_det_eval, exceptBindOk,
    prune_single, choose_det_single]

theorem pi_div_two_ne : (Real.pi / 2 : ℝ) ≠ 0 :=
  (by positivity : (0 : ℝ) < Real.pi / 2).ne'

theorem det_stage_eval : det_stage consWitness hwWitness (Real.pi / 6) 0
    (Real.pi / 2) =
    .ok (some ⟨("qaz"), Real.pi / 3, 0, Real.pi / 2, 0⟩) := by
  rw [det_stage]
  have hc1 : ¬ (consWitness.detector ≠ [] ∧ consWitness.naz ≠ []) :=
    fun h => h.2 rfl
  rw [if_neg hc1]
  show (do
    let dnq ← calc_remaining_detector_angles ("qaz") (Real.pi / 2)
        (Real.pi / 6)
    let naz_qaz_angle ← calc_angle_between_naz_and_qaz (Real.pi / 6) 0
        (Real.pi / 2)
    let naz := dnq.2.2 - naz_qaz_angle
    if (Real.pi / 2 : ℝ) ≠ 0 ∨ consWitness.naz ≠ [] then do
      let dn ← generate_final_detector_angles consWitness hwWitness dnq.1
          dnq.2.1 dnq.2.2 (Real.pi / 6) ("qaz")
      pure (some ⟨("qaz"), dn.1, dn.2, dnq.2.2, naz⟩)
    else
      pure (some ⟨("qaz"), dnq.1, dnq.2.1, dnq.2.2, naz⟩) :
    Except PyErr (Option DetInfo)) = _
  simp only [det_angles_eval, nq_eval, exceptBindOk]
  rw [if_pos (Or.inl pi_div_two_ne)]
  simp only [gen_final_det_eval, exceptBindOk, exceptPure, sub_self]

/-! ### Sample pipeline at the fixture -/

theorem not_small_one : ¬ is_small 1 := by
  rw [is_small, abs_one, not_lt, SMALL]
  norm_num

theorem not_small_pi_div_two : ¬ is_small (Real.pi / 2) := by
  rw [is_small, not_lt, SMALL]
  have := Real.pi_gt_three
  rw [abs_of_pos (by linarith)]
  linarith

theorem vsmul_one (v : Vec3) : Vec3.smul 1 v = v := by
  rw [Vec3.smul]
  ext <;> simp

theorem norm_qlab : Vec3.norm3 ⟨Real.sqrt 3 / 2, -(1 / 2), 0⟩ = 1 := by
  rw [Vec3.norm3]
  simp only
  rw [show (Real.sqrt 3 / 2) ^ 2 + (-(1 / 2 : ℝ)) ^ 2 + (0 : ℝ) ^ 2 = 1 by
    rw [div_pow, Real.sq_sqrt (by norm_num : (0 : ℝ) ≤ 3)]; norm_num]
  exact Real.sqrt_one

theorem norm_qxn : Vec3.norm3 ⟨-(1 / 2), -(Real.sqrt 3 / 2), 0⟩ = 1 := by
  rw [Vec3.norm3]
  simp only
  rw [show (-(1 / 2 : ℝ)) ^ 2 + (-(Real.sqrt 3 / 2)) ^ 2 + (0 : ℝ) ^ 2 = 1 by
    rw [neg_sq, neg_sq, div_pow, div_pow,
      Real.sq_sqrt (by norm_num : (0 : ℝ) ≤ 3)]
    norm_num]
  exact Real.sqrt_one

theorem norm_ez : Vec3.norm3 ⟨0, 0, 1⟩ = 1 := by
  rw [Vec3.norm3]
  simp only
  rw [show (0 : ℝ) ^ 2 + (0 : ℝ) ^ 2 + (1 : ℝ) ^ 2 = 1 by norm_num]
  exact Real.sqrt_one

theorem norm_ex : Vec3.norm3 ⟨1, 0, 0⟩ = 1 := by
  rw [Vec3.norm3]
  simp only
  rw [show (1 : ℝ) ^ 2 + (0 : ℝ) ^ 2 + (0 : ℝ) ^ 2 = 1 by norm_num]
  exact Real.sqrt_one

theorem norm_ney : Vec3.norm3 ⟨0, -1, 0⟩ = 1 := by
  rw [Vec3.norm3]
  simp only
  rw [show (0 : ℝ) ^ 2 + (-1 : ℝ) ^ 2 + (0 : ℝ) ^ 2 = 1 by norm_num]
  exact Real.sqrt_one

theorem norm_2pi : Vec3.norm3 ⟨2 * Real.pi, 0, 0⟩ = 2 * Real.pi := by
  rw [Vec3.norm3]
  simp only
  rw [show (2 * Real.pi) ^ 2 + (0 : ℝ) ^ 2 + (0 : ℝ) ^ 2 = (2 * Real.pi) ^ 2
    by ring]
  exact Real.sqrt_sq (by have := Real.pi_pos; positivity)

theorem calc_N_lab_eval : calc_N ⟨Real.sqrt 3 / 2, -(1 / 2), 0⟩ ⟨0, 0, 1⟩ =
    .ok ⟨Real.sqrt 3 / 2, 0, -(1 / 2),
         -(1 / 2), 0, -(Real.sqrt 3 / 2),
         0, 1, 0⟩ := by
  have hang : angle_between_vectors ⟨Real.sqrt 3 / 2, -(1 / 2), 0⟩
      ⟨0, 0, 1⟩ = Real.pi / 2 := by
    rw [angle_between_vectors, Vec3.dot3]
    simp only
    rw [show (Real.sqrt 3 / 2 * 0 + -(1 / 2) * 0 + 0 * 1 : ℝ) = 0 by ring,
      zero_div, bound_zero, Real.arccos_zero]
  have hcross1 : Vec3.cross3 ⟨Real.sqrt 3 / 2, -(1 / 2), 0⟩ ⟨0, 0, 1⟩ =
      ⟨-(1 / 2), -(Real.sqrt 3 / 2), 0⟩ := by
    rw [Vec3.cross3]
    ext <;> simp only <;> ring
  have hcross2 : Vec3.cross3 ⟨-(1 / 2), -(Real.sqrt 3 / 2), 0⟩
      ⟨Real.sqrt 3 / 2, -(1 / 2), 0⟩ = ⟨0, 0, 1⟩ := by
    rw [Vec3.cross3]
    ext <;> simp only
    · ring
    · ring
    · nlinarith [sqrt3_sq]
  simp only [calc_N, norm_qlab, one_div_one, vsmul_one, hang, hcross1,
    hcross2, norm_qxn, norm_ez]
  rw [if_neg not_small_pi_div_two]
  simp only [norm_qxn, norm_ez, one_div_one, vsmul_one, exceptPure,
    exceptBindOk]

theorem calc_N_phi_eval : calc_N ⟨2 * Real.pi, 0, 0⟩ ⟨0, 0, 1⟩ =
    .ok ⟨1, 0, 0,
         0, 0, -1,
         0, 1, 0⟩ := by
  have hsm : Vec3.smul (1 / (2 * Real.pi)) ⟨2 * Real.pi, 0, 0⟩ =
      ⟨1, 0, 0⟩ := by
    rw [Vec3.smul]
    ext <;> simp only
    · field_simp
    · ring
    · ring
  have hang : angle_between_vectors ⟨1, 0, 0⟩ ⟨0, 0, 1⟩ = Real.pi / 2 := by
    rw [angle_between_vectors, Vec3.dot3]
    simp only
    rw [show (1 * 0 + 0 * 0 + 0 * 1 : ℝ) = 0 by ring, zero_div, bound_zero,
      Real.arccos_zero]
  have hcross1 : Vec3.cross3 ⟨1, 0, 0⟩ ⟨0, 0, 1⟩ = ⟨0, -1, 0⟩ := by
    rw [Vec3.cross3]
    ext <;> simp only <;> ring
  have hcross2 : Vec3.cross3 ⟨0, -1, 0⟩ ⟨1, 0, 0⟩ = ⟨0, 0, 1⟩ := by
    rw [Vec3.cross3]
    ext <;> simp only <;> ring
  simp only [calc_N, norm_2pi, hsm, norm_ex, one_div_one, vsmul_one, hang,
    hcross1, hcross2, norm_ney, norm_ez]
  rw [if_neg not_small_pi_div_two]
  simp only [norm_ney, norm_ez, one_div_one, vsmul_one, exceptPure,
    exceptBindOk]

theorem sample_angles_eval : calc_remaining_sample_angles ("eta") 0
    ⟨Real.sqrt 3 / 2, -(1 / 2), 0⟩ ⟨0, 0, 1⟩ ⟨2 * Real.pi, 0, 0⟩ n_phi =
    .ok (Real.pi / 6, 0, 0, 0) := by
  have hV : Mat3.mul
      ⟨Real.sqrt 3 / 2, 0, -(1 / 2), -(1 / 2), 0, -(Real.sqrt 3 / 2),
       0, 1, 0⟩
      (Mat3.transpose ⟨1, 0, 0, 0, 0, -1, 0, 1, 0⟩) =
      ⟨Real.sqrt 3 / 2, 1 / 2, 0, -(1 / 2), Real.sqrt 3 / 2, 0,
       0, 0, 1⟩ := by
    rw [Mat3.transpose, Mat3.mul]
    ext <;> simp only <;> ring
  have hmu : atan2 (-(0 : ℝ)) (-(-(1 * 1) + 0 * (Real.sin 0 * Real.sin 0)))
      = 0 := by
    rw [neg_zero]
    rw [show (-(-(1 * 1) + 0 * (Real.sin 0 * Real.sin 0)) : ℝ) = 1 by ring]
    exact atan2_zero_of_pos_x (by norm_num)
  have hphi : atan2 (1 / 2) (Real.sqrt 3 / 2) = Real.pi / 6 := by
    rw [atan2_of_pos_x (by positivity), arctan_inv_sqrt3]
  rw [calc_remaining_sample_angles]
  simp only [n_phi, calc_N_lab_eval, calc_N_phi_eval, exceptBindOk, hV,
    String.reduceEq, reduceIte, if_false]
  rw [Real.cos_zero, if_neg not_small_one]
  simp only [zero_div, asinE_zero, exceptBindOk, exceptPure,
    Real.sin_zero, Real.arcsin_zero]
  norm_num [hphi, atan2_zero_of_pos_x]

theorem gtv_zero_constrained : generate_transformed_values 0 true = [0] := by
  rw [generate_transformed_values]
  simp

theorem axis_mu_eval : axis_candidates hwWitness 0 ("mu") (["eta"]) =
    [0] := by
  rw [axis_candidates]
  have hm : decide (("mu" : String) ∈ (["eta"] : List String)) = false := rfl
  rw [hm, gtv_zero]
  have f1 : hwWitness.isAxisValueWithinLimits ("mu")
      (hwWitness.cutAngle ("mu") (0 : ℝ)) = true := by
    rw [hw_cut, hw_mu]
    exact decide_eq_true (abs_le.mpr (by norm_num))
  have f2 : hwWitness.isAxisValueWithinLimits ("mu")
      (hwWitness.cutAngle ("mu") (Real.pi * TODEG)) = false := by
    rw [hw_cut, hw_mu, deg180]
    exact decide_eq_false (by rw [abs_le]; push_neg; intro h; norm_num)
  simp [List.filter_cons, f1, f2, cut_zero]

theorem axis_eta_eval : axis_candidates hwWitness 0 ("eta") (["eta"]) =
    [0] := by
  rw [axis_candidates]
  have hm : decide (("eta" : String) ∈ (["eta"] : List String)) = true := rfl
  rw [hm, gtv_zero_constrained]
  have f1 : hwWitness.isAxisValueWithinLimits ("eta")
      (hwWitness.cutAngle ("eta") (0 : ℝ)) = true := by
    rw [hw_cut, hw_eta]
    exact decide_eq_true (abs_le.mpr (by norm_num))
  simp [List.filter_cons, f1, cut_zero]

theorem axis_chi_eval : axis_candidates hwWitness 0 ("chi") (["eta"]) =
    [0] := by
  rw [axis_candidates]
  have hm : decide (("chi" : String) ∈ (["eta"] : List String)) = false := rfl
  rw [hm, gtv_zero]
  have f1 : hwWitness.isAxisValueWithinLimits ("chi")
      (hwWitness.cutAngle ("chi") (0 : ℝ)) = true := by
    rw [hw_cut, hw_chi]
    exact decide_eq_true (abs_le.mpr (by norm_num))
  have f2 : hwWitness.isAxisValueWithinLimits ("chi")
      (hwWitness.cutAngle ("chi") (Real.pi * TODEG)) = false := by
    rw [hw_cut, hw_chi, deg180]
    exact decide_eq_false (by rw [abs_le]; push_neg; intro h; norm_num)
  simp [List.filter_cons, f1, f2, cut_zero]

theorem axis_phi_eval : axis_candidates hwWitness (Real.pi / 6) ("phi")
    (["eta"]) = [Real.pi / 6, -(Real.pi / 6)] := by
  rw [axis_candidates]
  have hm : decide (("phi" : String) ∈ (["eta"] : List String)) = false := rfl
  rw [hm, gtv_pi_div_six]
  have f1 : hwWitness.isAxisValueWithinLimits ("phi")
      (hwWitness.cutAngle ("phi") (Real.pi / 6 * TODEG)) = true := by
    rw [hw_cut, hw_phi, deg30]
    exact decide_eq_true (abs_le.mpr (by norm_num))
  have f2 : hwWitness.isAxisValueWithinLimits ("phi")
      (hwWitness.cutAngle ("phi") (-(Real.pi / 6 * TODEG))) = true := by
    rw [hw_cut, hw_phi, deg30]
    exact decide_eq_true (abs_le.mpr (by norm_num))
  have f3 : hwWitness.isAxisValueWithinLimits ("phi")
      (hwWitness.cutAngle ("phi") ((Real.pi + Real.pi / 6) * TODEG)) =
      false := by
    rw [hw_cut, hw_phi, deg210]
    exact decide_eq_false (by rw [abs_le]; push_neg; intro h; norm_num)
  have f4 : hwWitness.isAxisValueWithinLimits ("phi")
      (hwWitness.cutAngle ("phi") ((Real.pi - Real.pi / 6) * TODEG)) =
      false := by
    rw [hw_cut, hw_phi, deg150]
    exact decide_eq_false (by rw [abs_le]; push_neg; intro h; norm_num)
  simp [List.filter_cons, f1, f2, f3, f4, cut_pi_div_six, cut_neg_pi_div_six]

theorem gen_sample_eval : generate_possible_solutions hwWitness
    [0, 0, 0, Real.pi / 6] (["mu", "eta", "chi", "phi"]) (["eta"]) =
    [[0, 0, 0, Real.pi / 6], [0, 0, 0, -(Real.pi / 6)]] := by
  rw [generate_possible_solutions]
  simp only [List.zip_cons_cons, List.zip_nil_left, List.map_cons,
    List.map_nil, axis_mu_eval, axis_eta_eval, axis_chi_eval, axis_phi_eval]
  simp [expand]

theorem hkl_at_pos1 : youAnglesToHkl ⟨0, Real.pi / 3, 0, 0, 0, Real.pi / 6⟩
    1 UBWitness = (1, 0, 0) := by
  rw [hkl_eval_phi, Real.cos_pi_div_six, Real.sin_pi_div_six]
  refine Prod.ext ?_ (Prod.ext ?_ ?_) <;> simp only
  · rw [div_eq_iff (by norm_num : (2 : ℝ) ≠ 0)]
    nlinarith [sqrt3_sq]
  · ring_nf

theorem hkl_at_pos2 : youAnglesToHkl
    ⟨0, Real.pi / 3, 0, 0, 0, -(Real.pi / 6)⟩ 1 UBWitness =
    (1 / 2, -(Real.sqrt 3 / 2), 0) := by
  rw [hkl_eval_phi, Real.cos_neg, Real.sin_neg, Real.cos_pi_div_six,
    Real.sin_pi_div_six]
  refine Prod.ext ?_ (Prod.ext ?_ ?_) <;> simp only
  · rw [div_eq_iff (by norm_num : (2 : ℝ) ≠ 0)]
    nlinarith [sqrt3_sq]
  · ring_nf

theorem seq_ok1 : sequence_ne [1, 0, 0]
    (tripleList ((1 : ℝ), (0 : ℝ), (0 : ℝ))) := by
  intro p hp
  simp only [tripleList, List.zip_cons_cons, List.zip_nil_left,
    List.mem_cons, List.not_mem_nil, or_false] at hp
  rcases hp with rfl | rfl | rfl <;> exact ne_refl_real _

theorem seq_not_ok2 : ¬ sequence_ne [1, 0, 0]
    (tripleList ((1 / 2 : ℝ), -(Real.sqrt 3 / 2), (0 : ℝ))) := by
  intro h
  have h1 := h (1, 1 / 2) (by simp [tripleList])
  rw [ne, is_small, show (1 : ℝ) - 1 / 2 = 1 / 2 by ring, SMALL,
    abs_of_pos (by norm_num : (0 : ℝ) < 1 / 2)] at h1
  norm_num at h1

theorem choose_single_eval : choose_sample_angles
    [((0 : ℝ), (0 : ℝ), (0 : ℝ), Real.pi / 6)] =
    .ok ((0 : ℝ), (0 : ℝ), (0 : ℝ), Real.pi / 6) := rfl

theorem filter_sample_eval : filter_valid_sample_solutions UBWitness
    (Real.pi / 3) 0
    [((0 : ℝ), (0 : ℝ), (0 : ℝ), Real.pi / 6),
     ((0 : ℝ), (0 : ℝ), (0 : ℝ), -(Real.pi / 6))] 1 [1, 0, 0] ("a_eq_b") 0 =
    .ok [((0 : ℝ), (0 : ℝ), (0 : ℝ), Real.pi / 6)] := by
  have hnil : filter_valid_sample_solutions UBWitness (Real.pi / 3) 0 []
      1 [1, 0, 0] ("a_eq_b") 0 = .ok [] := rfl
  rw [filter_valid_sample_solutions, filter_valid_sample_solutions]
  simp only [posOf, hkl_at_pos1, hkl_at_pos2, hnil]
  rw [if_pos seq_ok1, if_neg seq_not_ok2]
  simp only [va_eval_pos1, exceptBindOk, exceptPure]
  rw [virtual_matches]
  simp only [String.reduceEq, reduceIte, exceptPure, exceptBindOk]
  rw [if_pos ⟨seq_ok1, ne_refl_real 0⟩]

theorem gen_final_sample_eval : generate_final_sample_angles UBWitness
    hwWitness 0 0 0 (Real.pi / 6) (["eta"]) (Real.pi / 3) 0 1 [1, 0, 0]
    ("a_eq_b") 0 = .ok ((0 : ℝ), (0 : ℝ), (0 : ℝ), Real.pi / 6) := by
  have hquads : as_quads [[0, 0, 0, Real.pi / 6], [0, 0, 0, -(Real.pi / 6)]]
      = [((0 : ℝ), (0 : ℝ), (0 : ℝ), Real.pi / 6),
         ((0 : ℝ), (0 : ℝ), (0 : ℝ), -(Real.pi / 6))] := by
    simp [as_quads]
  rw [generate_final_sample_angles]
  simp only [gen_sample_eval, hquads, filter_sample_eval, exceptBindOk,
    choose_single_eval]

theorem sample_stage_eval : sample_stage UBWitness consWitness hwWitness
    (Real.pi / 6) 0 (Real.pi / 2)
    (some ⟨("qaz"), Real.pi / 3, 0, Real.pi / 2, 0⟩) 1 0 0 1 ("a_eq_b") 0
    ⟨2 * Real.pi, 0, 0⟩ = .ok (0, Real.pi / 3, 0, 0, 0, Real.pi / 6) := by
  have hq : (⟨Real.cos (Real.pi / 6) * Real.sin (Real.pi / 2),
      -Real.sin (Real.pi / 6),
      Real.cos (Real.pi / 6) * Real.cos (Real.pi / 2)⟩ : Vec3) =
      ⟨Real.sqrt 3 / 2, -(1 / 2), 0⟩ := by
    rw [Real.cos_pi_div_six, Real.sin_pi_div_six, Real.sin_pi_div_two,
      Real.cos_pi_div_two]
    ext <;> simp only <;> ring
  have hn : (⟨Real.cos 0 * Real.sin 0, -Real.sin 0,
      Real.cos 0 * Real.cos 0⟩ : Vec3) = ⟨0, 0, 1⟩ := by
    rw [Real.cos_zero, Real.sin_zero]
    ext <;> simp only <;> ring
  rw [sample_stage]
  simp only [consWitness]
  simp only [hq, hn, sample_angles_eval, exceptBindOk,
    gen_final_sample_eval, exceptPure]

theorem mu_not_in_consWitness : ("mu" : String) ∉ keys consWitness.sample := by
  rw [consWitness, keys]
  simp

theorem tidy_eval : tidy_degenerate_solutions
    ⟨0, Real.pi / 3, 0, 0, 0, Real.pi / 6⟩ consWitness =
    ⟨0, Real.pi / 3, 0, 0, 0, Real.pi / 6⟩ := by
  simp only [tidy_degenerate_solutions]
  rw [if_neg (fun hc => mu_not_in_consWitness hc.2.2),
    if_neg (fun hc => not_small_pi_div_three hc.1.1)]

theorem hklToAngles_eval : hklToAngles UBWitness consWitness hwWitness
    1 0 0 1 = .ok (⟨0, Real.pi / 3, 0, 0, 0, Real.pi / 6⟩,
      ⟨Real.pi / 6, Real.pi / 2, 0, 0, Real.pi / 2, some (Real.pi / 2),
       0⟩) := by
  have hphi : UBWitness.mulVec ⟨1, 0, 0⟩ = ⟨2 * Real.pi, 0, 0⟩ := by
    rw [UBWitness, smul_mulVec, I, Mat3.mulVec, Vec3.smul]
    ext <;> simp
  have hwrap : ¬ ((Real.pi / 6 : ℝ) ≤ -Real.pi + SMALL) := by
    rw [SMALL, not_le]
    have := Real.pi_gt_three
    linarith
  rw [hklToAngles]
  simp only [hphi, calc_theta_eval, exceptBindOk, tau_eval, ref_stage_eval,
    det_stage_eval, sample_stage_eval, tidy_eval, exceptPure]
  rw [if_neg hwrap]
  simp only [va_eval_pos1, exceptBindOk, exceptPure]

theorem not_deg1_fixture : ¬ degenerate_case1
    ⟨0, Real.pi / 3, 0, 0, 0, Real.pi / 6⟩ consWitness := fun h =>
  mu_not_in_consWitness h.2.1.2

theorem not_deg2_fixture : ¬ degenerate_case2
    ⟨0, Real.pi / 3, 0, 0, 0, Real.pi / 6⟩ consWitness := fun h =>
  not_small_pi_div_three h.1.1

/-- Witness for C1: the concrete fixture solve (UB = 2 pi I, a_eq_b with
qaz = 90 degrees and eta = 0, hkl = (1, 0, 0), wavelength 1) returns the
position (0, 60 deg, 0, 0, 0, 30 deg), which is non-degenerate and
round-trips to (1, 0, 0). -/
theorem C1_witness :
    hklToAngles UBWitness consWitness hwWitness 1 0 0 1 =
      .ok (⟨0, Real.pi / 3, 0, 0, 0, Real.pi / 6⟩,
        ⟨Real.pi / 6, Real.pi / 2, 0, 0, Real.pi / 2, some (Real.pi / 2),
         0⟩) ∧
    ¬ degenerate_case1 ⟨0, Real.pi / 3, 0, 0, 0, Real.pi / 6⟩ consWitness ∧
    ¬ degenerate_case2 ⟨0, Real.pi / 3, 0, 0, 0, Real.pi / 6⟩ consWitness ∧
    (|1 - (youAnglesToHkl ⟨0, Real.pi / 3, 0, 0, 0, Real.pi / 6⟩ 1
        UBWitness).1| ≤ 1e-6 ∧
     |0 - (youAnglesToHkl ⟨0, Real.pi / 3, 0, 0, 0, Real.pi / 6⟩ 1
        UBWitness).2.1| ≤ 1e-6 ∧
     |0 - (youAnglesToHkl ⟨0, Real.pi / 3, 0, 0, 0, Real.pi / 6⟩ 1
        UBWitness).2.2| ≤ 1e-6) :=
  ⟨hklToAngles_eval, not_deg1_fixture, not_deg2_fixture,
    C1_hkl_roundtrip UBWitness consWitness hwWitness 1 0 0 1 _ _
      hklToAngles_eval not_deg1_fixture not_deg2_fixture⟩

/-- Witness for C4: at the fixture filter output [(0, 0, 0, pi/6)] the
chosen sample tuple is a member, minimises the absolute-angle sum, and is
the first tuple attaining the minimum. -/
theorem C4_witness :
    ((0 : ℝ), (0 : ℝ), (0 : ℝ), Real.pi / 6) ∈
      [((0 : ℝ), (0 : ℝ), (0 : ℝ), Real.pi / 6)] ∧
    (∀ u ∈ [((0 : ℝ), (0 : ℝ), (0 : ℝ), Real.pi / 6)],
      sum_abs4 ((0 : ℝ), (0 : ℝ), (0 : ℝ), Real.pi / 6) ≤ sum_abs4 u) ∧
    (∃ i, i < ([((0 : ℝ), (0 : ℝ), (0 : ℝ), Real.pi / 6)]).length ∧
      ([((0 : ℝ), (0 : ℝ), (0 : ℝ), Real.pi / 6)]).getD i (0, 0, 0, 0) =
        ((0 : ℝ), (0 : ℝ), (0 : ℝ), Real.pi / 6) ∧
      ∀ j, j < i → sum_abs4 ((0 : ℝ), (0 : ℝ), (0 : ℝ), Real.pi / 6) <
        sum_abs4 (([((0 : ℝ), (0 : ℝ), (0 : ℝ), Real.pi / 6)]).getD j
          (0, 0, 0, 0))) :=
  (C4_sample_filter_and_choice UBWitness (Real.pi / 3) 0 1 [1, 0, 0]
    ("a_eq_b") 0
    [((0 : ℝ), (0 : ℝ), (0 : ℝ), Real.pi / 6),
     ((0 : ℝ), (0 : ℝ), (0 : ℝ), -(Real.pi / 6))]
    [((0 : ℝ), (0 : ℝ), (0 : ℝ), Real.pi / 6)]).2.1
    ((0 : ℝ), (0 : ℝ), (0 : ℝ), Real.pi / 6) choose_single_eval

end CalcYou
